import Mathlib

/-!
A shallow embedding of `src/module/neural_network.cpp`.

The C++ `double` is modelled by an arbitrary linearly ordered field `α`;
the statements are instantiated at the rationals and at the reals. The
`<cmath>` functions `exp` and `tanh` are library code and enter as the
parameter `CMath α`; at the reals they are `Real.exp` and `Real.tanh`.
Vectors are lists; an element read `v[i]` is `v.getD i 0` and an element
write `v[i] = a` is `v.set i a`. Reads and writes outside a vector have no
defined behaviour in the source; here such a read yields 0 and such a write
does nothing.

Every layer of a network has at most 65535 neurons, because the constructor
takes the layer sizes as `unsigned short`. The `unsigned short` loop
indices of the network methods range over layer sizes and are natural
numbers here. `classify` is a free function over an arbitrary vector, so
its `unsigned short` index is modelled with its wrap-around.
-/

namespace NN

/-- The `<cmath>` functions the source calls and does not define. -/
structure CMath (α : Type) where
  exp : α → α
  tanh : α → α

/-- Modelled from the spec: the `Neuron` class of `header/neural_network.h`,
which is not among the sources. Spec section 3 lists these four fields. -/
structure Neuron (α : Type) where
  activated_value : α
  transfer_value : α
  error : α
  weights_to_next_layer : List α

/-- Modelled from the spec: the `Layer` class of `header/neural_network.h`,
which is not among the sources. Spec section 3: an ordered sequence of
neurons and one scalar bias. -/
structure Layer (α : Type) where
  neurons : List (Neuron α)
  bias : α

/-- Modelled from the spec: `Layer::size()`, the number of neurons of the
layer ("knows its size"). -/
def Layer.size {α : Type} (l : Layer α) : Nat := l.neurons.length

/-- Modelled from the spec: the `Point` type of `header/dataset_utils.h`, an
input vector `x` and a target vector `y`. -/
structure Point (α : Type) where
  x : List α
  y : List α

/-- The `NeuralNetwork` class: its only data member used by the source is
`layers`. -/
structure NeuralNetwork (α : Type) where
  layers : List (Layer α)

/-- How a call ends: it returns a value and leaves the network in a state, or
the process is terminated by `exit(1)` (the fatal configuration error of
`get_transfer_methods`) or by a failed `assert`, with the network in the
state it had at that moment. -/
inductive Outcome (α β : Type) where
  | returned (value : β) (net : NeuralNetwork α)
  | fatal (net : NeuralNetwork α)
  | aborted (net : NeuralNetwork α)

section Functions

variable {α : Type} [LinearOrderedField α]

/-- Layer number `L` of the network, the empty layer when there is none. -/
def NeuralNetwork.layer (net : NeuralNetwork α) (L : Nat) : Layer α :=
  net.layers.getD L ⟨[], 0⟩

/-- Neuron number `i` of a layer, a neuron of zeros when there is none. -/
def Layer.neuron (l : Layer α) (i : Nat) : Neuron α :=
  l.neurons.getD i ⟨0, 0, 0, []⟩

/-- Neuron number `i` of layer number `L`. -/
def NeuralNetwork.neuron (net : NeuralNetwork α) (L i : Nat) : Neuron α :=
  (net.layer L).neuron i

/-- The weight from neuron `i` of layer `L` to neuron `j` of layer `L + 1`. -/
def NeuralNetwork.weight (net : NeuralNetwork α) (L i j : Nat) : α :=
  (net.neuron L i).weights_to_next_layer.getD j 0

/-- Source line 33. -/
def relu (z : α) : α := max 0 z

/-- Source line 35: the comparison result converted to `double`. -/
def relu_derivative (activated_z : α) : α := if activated_z > 0 then 1 else 0

/-- Source line 37. -/
def sigmoid (m : CMath α) (z : α) : α := 1 / (1 + m.exp (-1 * z))

/-- Source line 39. -/
def sigmoid_derivative (activated_z : α) : α := activated_z * (1 - activated_z)

/-- Source line 41: `pow(tanh(a), 2)`. -/
def tanh_derivative (m : CMath α) (activated_z : α) : α := 1 - (m.tanh activated_z) ^ 2

/-- Source line 43. -/
def none_function (z : α) : α := z

/-- Source line 45. -/
def none_derivative (_z : α) : α := 1

/-- The loop of `classify`, source lines 54-63. The index `i` is an
`unsigned short`: `++i` is `(i + 1) % 65536`. One unit of fuel is one
evaluation of the loop condition; `none` is fuel exhausted. -/
def classify_loop : Nat → List α → α → Nat → Nat → Option (List α)
  | 0, _, _, _, _ => none
  | fuel + 1, prediction, max, max_index, i =>
    if i < prediction.length then
      if prediction.getD i 0 > max then
        let p1 := prediction.set max_index 0
        classify_loop fuel (p1.set i 1) (p1.getD i 0) i ((i + 1) % 65536)
      else
        classify_loop fuel (prediction.set i 0) max max_index ((i + 1) % 65536)
    else some prediction

/-- Source lines 47-65. The vector is updated in place in the source; here
the updated vector is the result. -/
def classify (fuel : Nat) (prediction : List α) : Option (List α) :=
  if prediction.length = 1 then
    some (prediction.set 0 (if prediction.getD 0 0 ≥ 1 / 2 then 1 else 0))
  else
    classify_loop fuel (prediction.set 0 1) (prediction.getD 0 0) 0 1

/-- Source lines 108-131. `none` is the branch that prints
`INVALID ACTIVATION FUNCTION` and calls `exit(1)`. -/
def get_transfer_methods (m : CMath α) (transfer_function : String) :
    Option ((α → α) × (α → α)) :=
  if transfer_function = "tanh" ∨ transfer_function = "tanh_regression" then
    some (m.tanh, tanh_derivative m)
  else if transfer_function = "sigmoid" ∨ transfer_function = "sigmoid_regression" then
    some (sigmoid m, sigmoid_derivative)
  else if transfer_function = "relu" ∨ transfer_function = "relu_regression" then
    some (relu, relu_derivative)
  else if transfer_function = "none" then
    some (none_function, none_derivative)
  else none

/-- Whether the mode is a classification mode: the test of source lines
153-156, repeated at lines 237-240, 246-249 and 262-265. -/
def is_classification (transfer_function : String) : Bool :=
  transfer_function ≠ "none"
    && transfer_function ≠ "tanh_regression"
    && transfer_function ≠ "sigmoid_regression"
    && transfer_function ≠ "relu_regression"

/-- The `std::inner_product` of `<numeric>`: the accumulator starts at `init`
and receives `a[k] * b[k]` for each position in turn. -/
def inner_product (a b : List α) (init : α) : α :=
  (a.zip b).foldl (fun acc p => acc + p.1 * p.2) init

/-- The `std::accumulate` of `<numeric>`. -/
def accumulate (v : List α) (init : α) : α :=
  v.foldl (fun acc a => acc + a) init

/-- Source lines 141-144: neuron `k` of the input layer receives `x[k]`, for
every `k` below `x.size()`. -/
def set_inputs (transfer_fn : α → α) : List (Neuron α) → List α → List (Neuron α)
  | n :: ns, v :: vs =>
    { n with activated_value := v, transfer_value := transfer_fn v } :: set_inputs transfer_fn ns vs
  | ns, [] => ns
  | [], _ :: _ => []

/-- Source lines 149-150: the vector `weights`, one entry per neuron of
`layer`, its outgoing weight number `weight`. -/
def weight_column (layer : Layer α) (weight : Nat) : List α :=
  layer.neurons.map (fun n => n.weights_to_next_layer.getD weight 0)

/-- Source lines 151-160 for the neuron `weight` of the layer after `layer`;
`bias` is the bias of that next layer. -/
def activate_neuron (transfer_fn : α → α) (transfer_function : String) (layer : Layer α)
    (inputs : List α) (bias : α) (weight : Nat) (n : Neuron α) : Neuron α :=
  let activated_value := inner_product (weight_column layer weight) inputs bias
  let transfer_value := transfer_fn activated_value
  { n with
    activated_value :=
      if is_classification transfer_function then activated_value else transfer_value,
    transfer_value := transfer_value }

/-- Source lines 146-163, one iteration of the layer loop: the layer
`next` after `layer` is recomputed from `inputs`; the second component is
`new_inputs`. -/
def forward_layer (transfer_fn : α → α) (transfer_function : String) (layer next : Layer α)
    (inputs : List α) : Layer α × List α :=
  let neurons :=
    next.neurons.mapIdx (activate_neuron transfer_fn transfer_function layer inputs next.bias)
  ({ next with neurons := neurons }, neurons.map (fun n => n.transfer_value))

/-- Source lines 145-164, the loop over `layer` from the first layer to the
one before the last; the result is the updated layers and the final
`inputs`. -/
def forward_layers (transfer_fn : α → α) (transfer_function : String) :
    Layer α → List (Layer α) → List α → List (Layer α) × List α
  | layer, [], inputs => ([layer], inputs)
  | layer, next :: rest, inputs =>
    let step := forward_layer transfer_fn transfer_function layer next inputs
    let tail := forward_layers transfer_fn transfer_function step.1 rest step.2
    (layer :: tail.1, tail.2)

/-- Source lines 134-166. -/
def NeuralNetwork.forward_propagate (m : CMath α) (net : NeuralNetwork α) (datapoint : Point α)
    (transfer_function : String) : Outcome α (List α) :=
  match get_transfer_methods m transfer_function with
  | none => Outcome.fatal net
  | some (transfer_fn, _) =>
    match net.layers with
    | [] => Outcome.returned datapoint.x net
    | first :: rest =>
      let first1 := { first with neurons := set_inputs transfer_fn first.neurons datapoint.x }
      let r := forward_layers transfer_fn transfer_function first1 rest datapoint.x
      Outcome.returned r.2 ⟨r.1⟩

/-- Source lines 176-179 for the output neuron number `neuron`. -/
def output_error (transfer_derivative : α → α) (y : List α) (neuron : Nat) (n : Neuron α) :
    Neuron α :=
  let diff := y.getD neuron 0 - n.transfer_value
  let square_diff := diff ^ 2
  { n with error := square_diff * transfer_derivative n.transfer_value }

/-- Source lines 184-194, one iteration of the reverse layer loop: `layer`
is the layer `layer + 1` of the source (the one nearer the input) and
`errors` the errors of the layer after it. -/
def backward_layer (transfer_fn : α → α) (layer : Layer α) (errors : List α) : Layer α :=
  { layer with
    neurons := layer.neurons.map (fun n =>
      { n with
        error := inner_product errors n.weights_to_next_layer 0 * transfer_fn n.transfer_value }) }

/-- Source lines 183-196: the reverse loop, over the layers before the output
layer listed from the last to the first. -/
def backward_pass (transfer_fn : α → α) : List (Layer α) → List α → List (Layer α)
  | [], _ => []
  | layer :: rest, errors =>
    let layer1 := backward_layer transfer_fn layer errors
    layer1 :: backward_pass transfer_fn rest (layer1.neurons.map (fun n => n.error))

/-- Source lines 168-198. -/
def NeuralNetwork.backpropagate (m : CMath α) (net : NeuralNetwork α) (datapoint : Point α)
    (transfer_function : String) : Outcome α α :=
  match get_transfer_methods m transfer_function with
  | none => Outcome.fatal net
  | some (transfer_fn, transfer_derivative) =>
    match net.layers.reverse with
    | [] => Outcome.returned 0 net
    | back :: before =>
      let back1 :=
        { back with neurons := back.neurons.mapIdx (output_error transfer_derivative datapoint.y) }
      let errors := back1.neurons.map (fun n => n.error)
      let cost := accumulate errors 0
      Outcome.returned cost ⟨(back1 :: backward_pass transfer_fn before errors).reverse⟩

/-- Source lines 210-212 for one neuron of `layer`: each of its weights whose
number is below the size of `next` is incremented. -/
def update_neuron (rate : α) (next : Layer α) (input : α) (n : Neuron α) : Neuron α :=
  { n with
    weights_to_next_layer := n.weights_to_next_layer.mapIdx (fun weight w =>
      match next.neurons[weight]? with
      | some target => w + rate * target.error * input
      | none => w) }

/-- Source lines 209-213: every neuron of `layer` is updated with its own
entry of `inputs`. -/
def update_layer (rate : α) (layer next : Layer α) (inputs : List α) : Layer α :=
  { layer with
    neurons := layer.neurons.mapIdx (fun neuron n =>
      update_neuron rate next (inputs.getD neuron 0) n) }

/-- Source lines 208-217, the loop over `layer` from the first layer to the
one before the last. -/
def update_layers (rate : α) : Layer α → List (Layer α) → List α → List (Layer α)
  | layer, [], _ => [layer]
  | layer, next :: rest, inputs =>
    update_layer rate layer next inputs ::
      update_layers rate next rest (next.neurons.map (fun n => n.transfer_value))

/-- Source lines 200-218. -/
def NeuralNetwork.update_weights (net : NeuralNetwork α) (datapoint : Point α) (lr : α)
    (normalize_lr : Bool) : NeuralNetwork α :=
  let rate := if normalize_lr then lr / (1 + lr * accumulate datapoint.x 0) else lr
  match net.layers with
  | [] => net
  | first :: rest => ⟨update_layers rate first rest datapoint.x⟩

/-- The conversion of a `double` to `int`: truncation toward zero. -/
def to_int [FloorRing α] (a : α) : Int := if 0 ≤ a then Int.floor a else Int.ceil a

/-- The assignment `class_counts[k] = v` on a `std::map<int, int>`, kept as
the list of its entries in key order. -/
def map_put : List (Int × Int) → Int → Int → List (Int × Int)
  | [], k, v => [(k, v)]
  | (k1, v1) :: rest, k, v =>
    if k = k1 then (k, v) :: rest
    else if k < k1 then (k, v) :: (k1, v1) :: rest
    else (k1, v1) :: map_put rest k v

/-- Source lines 252-255 for one entry `p` of the classified prediction: the
key is `p` converted to `int`; `+=` adds the `double` to the stored `int` and
converts the sum back to `int`. -/
def count_class [FloorRing α] (class_counts : List (Int × Int)) (p : α) : List (Int × Int) :=
  match class_counts.lookup (to_int p) with
  | some c => map_put class_counts (to_int p) (to_int ((c : α) + p))
  | none => map_put class_counts (to_int p) 1

/-- The local variables of `predict` that outlive one example. -/
structure PredictVars (α : Type) where
  total_cost : α
  total_correct : Nat
  class_counts : List (Int × Int)

/-- What `predict` reports: `mean_cost` is the value it returns, the other
fields are what it prints (the prediction counts only in a classification
mode). -/
structure Report (α : Type) where
  total_correct : Nat
  percent_correct : α
  prediction_counts : Option (List (Int × Int))
  mean_cost : α

/-- The output layer `layers.back()`. -/
def NeuralNetwork.back (net : NeuralNetwork α) : Layer α :=
  net.layers.getLastD ⟨[], 0⟩

/-- Source lines 228-260, the loop over the examples. `fuel` is the fuel of
each call of `classify`; `none` is a call of `classify` that does not
return. `total_correct` is an `unsigned int`. -/
def predict_loop [FloorRing α] (m : CMath α) (fuel : Nat) (transfer_function : String) :
    List (Point α) → PredictVars α → NeuralNetwork α → Option (Outcome α (PredictVars α))
  | [], v, net => some (Outcome.returned v net)
  | datapoint :: rest, v, net =>
    match net.forward_propagate m datapoint transfer_function with
    | Outcome.fatal n => some (Outcome.fatal n)
    | Outcome.aborted n => some (Outcome.aborted n)
    | Outcome.returned prediction net1 =>
      let total_cost := net1.back.neurons.foldl (fun acc n => acc + n.error) v.total_cost
      if is_classification transfer_function then
        match classify fuel prediction with
        | none => none
        | some decision =>
          let correct := if decision = datapoint.y then 1 else 0
          let counts := (List.range net1.back.size).foldl
            (fun cc i => count_class cc (decision.getD i 0)) v.class_counts
          predict_loop m fuel transfer_function rest
            ⟨total_cost, (v.total_correct + correct) % 4294967296, counts⟩ net1
      else
        let correct := if |prediction.getD 0 0 - datapoint.y.getD 0 0| ≤ 1 / 100 then 1 else 0
        predict_loop m fuel transfer_function rest
          ⟨total_cost, (v.total_correct + correct) % 4294967296, v.class_counts⟩ net1

/-- Source lines 220-271. -/
def NeuralNetwork.predict [FloorRing α] (m : CMath α) (fuel : Nat) (net : NeuralNetwork α)
    (dataset : List (Point α)) (transfer_function : String) : Option (Outcome α (Report α)) :=
  match get_transfer_methods m transfer_function with
  | none => some (Outcome.fatal net)
  | some _ =>
    match predict_loop m fuel transfer_function dataset ⟨0, 0, []⟩ net with
    | none => none
    | some (Outcome.fatal n) => some (Outcome.fatal n)
    | some (Outcome.aborted n) => some (Outcome.aborted n)
    | some (Outcome.returned v net1) =>
      some (Outcome.returned
        ⟨v.total_correct, 100 * (v.total_correct : α) / (dataset.length : α),
          if is_classification transfer_function then some v.class_counts else none,
          1 * v.total_cost / (dataset.length : α)⟩ net1)

/-- A `double` of the training loop that may be not-a-number: `none` is NaN.
The costs the network arithmetic over `α` produces are numbers; NaN enters
through the per-step cost of `train_loop`. -/
abbrev Cost (α : Type) := Option α

/-- The test `isnan(c)`. -/
def Cost.isnan (c : Cost α) : Bool := c.isNone

/-- The test `c >= t`, false when `c` is NaN. -/
def Cost.ge (c : Cost α) (t : α) : Bool :=
  match c with
  | some a => decide (a ≥ t)
  | none => false

/-- The local variables of `train`. `cost_log` holds the lines written to
the cost log file, oldest first. -/
structure TrainVars (α : Type) where
  dataset : List (Point α)
  i : Nat
  total_cost : Cost α
  cost : Cost α
  average_cost : Cost α
  cost_log : List (Nat × Cost α)

/-- Source lines 81-86, one training step on the network: forward
propagation, backpropagation, weight update; the value is the cost. -/
def train_step (m : CMath α) (transfer_function : String) (lr : α) (normalize_lr : Bool)
    (net : NeuralNetwork α) (datapoint : Point α) : Outcome α (Cost α) :=
  match net.forward_propagate m datapoint transfer_function with
  | Outcome.fatal n => Outcome.fatal n
  | Outcome.aborted n => Outcome.aborted n
  | Outcome.returned _ net1 =>
    match net1.backpropagate m datapoint transfer_function with
    | Outcome.fatal n => Outcome.fatal n
    | Outcome.aborted n => Outcome.aborted n
    | Outcome.returned cost net2 =>
      Outcome.returned (some cost) (net2.update_weights datapoint lr normalize_lr)

/-- Source lines 79-88, the loop over the examples of one pass, with the
training step as a parameter. The counter `i` is an `unsigned`: a run that
would take it to 2^32 is outside the model (`none`). -/
def train_pass (step : NeuralNetwork α → Point α → Outcome α (Cost α)) :
    List (Point α) → TrainVars α → NeuralNetwork α → Option (Outcome α (TrainVars α))
  | [], v, net => some (Outcome.returned v net)
  | datapoint :: rest, v, net =>
    if v.average_cost.ge (1 / 1000) then
      match step net datapoint with
      | Outcome.fatal n => some (Outcome.fatal n)
      | Outcome.aborted n => some (Outcome.aborted n)
      | Outcome.returned cost net1 =>
        let total_cost := do
          let t ← v.total_cost
          let c ← cost
          pure (t + |c|)
        let average_cost := total_cost.map (fun t => t / (v.i : α))
        if v.i + 1 < 4294967296 then
          train_pass step rest
            { v with
              i := v.i + 1, total_cost := total_cost, cost := cost,
              average_cost := average_cost,
              cost_log := v.cost_log ++ [(v.i, average_cost)] } net1
        else none
    else some (Outcome.returned v net)

/-- Source lines 78-97, the outer loop. One unit of fuel is one evaluation
of the loop condition; `none` is fuel exhausted. `generate_dataset` belongs
to `dataset_utils`, which is not among the sources, and is a parameter. -/
def train_loop (step : NeuralNetwork α → Point α → Outcome α (Cost α))
    (generate_dataset : Nat → Nat → Nat → String → List (Point α)) (dataset_type : String) :
    Nat → TrainVars α → NeuralNetwork α → Option (Outcome α (TrainVars α))
  | 0, _, _ => none
  | fuel + 1, v, net =>
    if v.average_cost.ge (1 / 1000) && !v.average_cost.isnan then
      match train_pass step v.dataset v net with
      | some (Outcome.returned v1 net1) =>
        if !v1.average_cost.isnan && v1.average_cost.ge (1 / 1000)
            && dataset_type ≠ "none" && dataset_type ≠ "max_index_const" then
          let front := v1.dataset.headD ⟨[], []⟩
          train_loop step generate_dataset dataset_type fuel
            { v1 with
              dataset := generate_dataset 500000 front.x.length front.y.length dataset_type }
            net1
        else if v1.i < 250000 then
          train_loop step generate_dataset dataset_type fuel
            { v1 with average_cost := some 1, total_cost := some 0 } net1
        else
          train_loop step generate_dataset dataset_type fuel v1 net1
      | other => other
    else some (Outcome.returned v net)

/-- Source lines 68-105, with the training step as a parameter. The
source reads the first example before the loop: on an empty dataset it has
no defined behaviour (`none`). The `assert` of line 74 compares the length
of its input with the size of `layers[0]`. -/
def train_with (step : NeuralNetwork α → Point α → Outcome α (Cost α))
    (generate_dataset : Nat → Nat → Nat → String → List (Point α)) (fuel : Nat)
    (net : NeuralNetwork α) (dataset : List (Point α)) (dataset_type : String) :
    Option (Outcome α Bool) :=
  match dataset with
  | [] => none
  | datapoint :: _ =>
    if datapoint.x.length = (net.layer 0).size then
      match train_loop step generate_dataset dataset_type fuel
          ⟨dataset, 1, some 0, some 0, some 1, []⟩ net with
      | none => none
      | some (Outcome.fatal n) => some (Outcome.fatal n)
      | some (Outcome.aborted n) => some (Outcome.aborted n)
      | some (Outcome.returned v net1) => some (Outcome.returned (!v.cost.isnan) net1)
    else some (Outcome.aborted net)

/-- Source lines 68-105: `train` runs the loop with the step of lines
81-86. -/
def NeuralNetwork.train (m : CMath α)
    (generate_dataset : Nat → Nat → Nat → String → List (Point α)) (fuel : Nat)
    (net : NeuralNetwork α) (dataset : List (Point α)) (transfer_function : String) (lr : α)
    (dataset_type : String) (normalize_lr : Bool) : Option (Outcome α Bool) :=
  train_with (train_step m transfer_function lr normalize_lr) generate_dataset fuel net dataset
    dataset_type

/-- What forward propagation must leave alone in a layer: the bias and, for
each neuron in order, its error and its weights. -/
def Layer.forward_frame (l : Layer α) : α × List (α × List α) :=
  (l.bias, l.neurons.map (fun n => (n.error, n.weights_to_next_layer)))

/-- What backpropagation must leave alone in a layer: the bias and, for each
neuron in order, its activated value, its transfer value and its weights. -/
def Layer.backward_frame (l : Layer α) : α × List (α × α × List α) :=
  (l.bias, l.neurons.map (fun n => (n.activated_value, n.transfer_value, n.weights_to_next_layer)))

/-- A network of three layers (two inputs, two hidden neurons, one output)
used to instantiate the statements. The output layer has bias 0 and no
weights, as the constructor builds it. -/
def example_network (α : Type) [LinearOrderedField α] : NeuralNetwork α :=
  ⟨[⟨[⟨0, 0, 0, [1, 2]⟩, ⟨0, 0, 0, [3, 4]⟩], 5⟩,
    ⟨[⟨0, 0, 0, [1]⟩, ⟨0, 0, 0, [-1]⟩], 1⟩,
    ⟨[⟨0, 0, 0, []⟩], 0⟩]⟩

/-- An example for `example_network`: inputs `[1, -1]`, target `[1]`. -/
def example_point (α : Type) [LinearOrderedField α] : Point α := ⟨[1, -1], [1]⟩

/-- A network of two layers, one neuron each, with the weight `-1`. -/
def small_network (α : Type) [LinearOrderedField α] : NeuralNetwork α :=
  ⟨[⟨[⟨0, 0, 0, [-1]⟩], 5⟩, ⟨[⟨0, 0, 0, []⟩], 0⟩]⟩

/-- A state of `example_network` in which the neurons hold transfer values
other than 0: `1, 2` in the input layer, `3, 1` in the hidden layer and `2` in
the output layer. -/
def activated_network (α : Type) [LinearOrderedField α] : NeuralNetwork α :=
  ⟨[⟨[⟨1, 1, 0, [1, 2]⟩, ⟨2, 2, 0, [3, 4]⟩], 5⟩,
    ⟨[⟨3, 3, 0, [1]⟩, ⟨1, 1, 0, [-1]⟩], 1⟩,
    ⟨[⟨2, 2, 0, []⟩], 0⟩]⟩

/-- A network of a single layer of one neuron. -/
def single_layer_network (α : Type) [LinearOrderedField α] : NeuralNetwork α :=
  ⟨[⟨[⟨0, 0, 0, []⟩], 0⟩]⟩

/-- Source lines 12-31, the constructor. `make_layer` stands for the
constructor `Layer(size, random, bias, next_size, mean, std)` of
`header/neural_network.h`, which is not among the sources. `none` is a failed
`assert`. The first `assert` compares `layer_sizes.size() - 1`, an unsigned
difference that wraps to the largest value when the size list is empty and
then equals no vector length, with `biases.size()`. Line 30 passes
`0, 0.0, 0.0, 0` for bias, next size, mean and deviation. -/
def NeuralNetwork.construct (make_layer : Nat → Bool → α → Nat → α → α → Layer α)
    (layer_sizes : List Nat) (random : Bool) (biases : List α) (weights_mean weights_std : α) :
    Option (NeuralNetwork α) :=
  if layer_sizes ≠ [] ∧ layer_sizes.length - 1 = biases.length
      ∧ layer_sizes.all (fun layer_ => decide (layer_ > 0)) = true then
    some ⟨(List.range (layer_sizes.length - 1)).map (fun layer =>
        make_layer (layer_sizes.getD layer 0) random (biases.getD layer 0)
          (layer_sizes.getD (layer + 1) 0) weights_mean weights_std)
      ++ [make_layer (layer_sizes.getLastD 0) random 0 0 0 0]⟩
  else none

/-- Modelled from the spec: the constructor
`Layer(size, random, bias, next_size, mean, std)` of
`header/neural_network.h`, which is not among the sources. It builds `size`
neurons with `next_size` outgoing weights each and stores `bias`. The spec
does not give the initial values: here the three scalar fields are 0 and,
the random draw left aside, every weight is `mean`. -/
def Layer.make (size : Nat) (_random : Bool) (bias : α) (next_size : Nat) (mean _std : α) :
    Layer α :=
  ⟨List.replicate size ⟨0, 0, 0, List.replicate next_size mean⟩, bias⟩

/-- A training step that follows a script of per-step costs: the number of
layers of the network serves as the clock, step number `n` (from 0) costs
`costs[n]`, and 0 once the script is over. -/
def scripted_step (costs : List (Cost α)) (net : NeuralNetwork α) (_datapoint : Point α) :
    Outcome α (Cost α) :=
  Outcome.returned (costs.getD net.layers.length (some 0)) ⟨⟨[], 0⟩ :: net.layers⟩

end Functions

section Proofs

variable {α : Type} [LinearOrderedField α]

set_option linter.unusedSectionVars false

/-- Reading the position just written. -/
theorem getD_set_self {β : Type} (l : List β) (i : Nat) (a d : β) (h : i < l.length) :
    (l.set i a).getD i d = a := by
  simp [List.getElem?_set_self h]

/-- Reading a position other than the one written. -/
theorem getD_set_other {β : Type} (l : List β) (i j : Nat) (a d : β) (h : i ≠ j) :
    (l.set i a).getD j d = l.getD j d := by
  simp [List.getElem?_set_ne h]

/-- On a vector of 65536 or more entries the `unsigned short` index of
`classify` stays below the size: the loop never exits. -/
theorem classify_loop_length_ge (fuel : Nat) :
    ∀ (q : List α) (mx : α) (k i : Nat), 65536 ≤ q.length → i < 65536 →
      classify_loop fuel q mx k i = none := by
  induction fuel with
  | zero => intro q mx k i _ _; rfl
  | succ f ih =>
    intro q mx k i hq hi
    have hlt : i < q.length := by omega
    have hmod : (i + 1) % 65536 < 65536 := Nat.mod_lt _ (by norm_num)
    unfold classify_loop
    rw [if_pos hlt]
    split
    · exact ih _ _ _ _ (by simpa using hq) hmod
    · exact ih _ _ _ _ (by simpa using hq) hmod

/-- The loop invariant of `classify`: positions below `i` hold the one-hot
vector of the first maximum `k` of the original entries below `i`, positions
from `i` on are untouched. -/
theorem classify_loop_spec (p : List α) (d : Nat) :
    ∀ (q : List α) (k i : Nat), p.length - i = d → q.length = p.length → p.length < 65536 →
      k < i → i ≤ p.length →
      (∀ j, j < i → q.getD j 0 = if j = k then 1 else 0) →
      (∀ j, i ≤ j → q.getD j 0 = p.getD j 0) →
      (∀ j, j < i → p.getD j 0 ≤ p.getD k 0) →
      (∀ j, j < k → p.getD j 0 < p.getD k 0) →
      ∃ r k1, (∀ fuel, d < fuel → classify_loop fuel q (p.getD k 0) k i = some r) ∧
        r.length = p.length ∧
        k1 < p.length ∧ (∀ j, j < p.length → p.getD j 0 ≤ p.getD k1 0) ∧
        (∀ j, j < k1 → p.getD j 0 < p.getD k1 0) ∧
        ∀ j, j < p.length → r.getD j 0 = if j = k1 then 1 else 0 := by
  induction d with
  | zero =>
    intro q k i hd hq hp hk hi hdone htodo hmax hfirst
    have hieq : i = p.length := by omega
    subst hieq
    refine ⟨q, k, ?_, hq, hk, hmax, hfirst, hdone⟩
    intro fuel hf
    obtain ⟨f, rfl⟩ : ∃ f, fuel = f + 1 := ⟨fuel - 1, by omega⟩
    rw [classify_loop, if_neg (by omega)]
  | succ d ih =>
    intro q k i hd hq hp hk hi hdone htodo hmax hfirst
    have hlt : i < p.length := by omega
    have hmod : (i + 1) % 65536 = i + 1 := Nat.mod_eq_of_lt (by omega)
    have hqi : q.getD i 0 = p.getD i 0 := htodo i le_rfl
    by_cases hgt : q.getD i 0 > p.getD k 0
    · have hne : k ≠ i := by omega
      have hval : (q.set k 0).getD i 0 = p.getD i 0 := by
        rw [getD_set_other _ _ _ _ _ hne, hqi]
      have hgt1 : p.getD i 0 > p.getD k 0 := by rw [← hqi]; exact hgt
      obtain ⟨r, k1, hrun, hrest⟩ := ih ((q.set k 0).set i 1) i (i + 1) (by omega)
        (by simpa using hq) hp (by omega) (by omega)
        (by
          intro j hj
          by_cases hji : j = i
          · subst hji
            rw [getD_set_self _ _ _ _ (by simpa [hq] using hlt)]
            simp
          · rw [getD_set_other _ _ _ _ _ (Ne.symm hji), if_neg hji]
            by_cases hjk : j = k
            · subst hjk
              exact getD_set_self _ _ _ _ (by omega)
            · rw [getD_set_other _ _ _ _ _ (Ne.symm hjk), hdone j (by omega), if_neg hjk])
        (by
          intro j hj
          rw [getD_set_other _ _ _ _ _ (by omega), getD_set_other _ _ _ _ _ (by omega)]
          exact htodo j (by omega))
        (by
          intro j hj
          by_cases hji : j = i
          · subst hji; exact le_rfl
          · exact le_of_lt (lt_of_le_of_lt (hmax j (by omega)) hgt1))
        (by
          intro j hj
          exact lt_of_le_of_lt (hmax j hj) hgt1)
      refine ⟨r, k1, ?_, hrest⟩
      intro fuel hf
      obtain ⟨f, rfl⟩ : ∃ f, fuel = f + 1 := ⟨fuel - 1, by omega⟩
      rw [classify_loop, if_pos (by omega), if_pos hgt]
      simp only [hmod, hval]
      exact hrun f (by omega)
    · have hgt1 : ¬ p.getD i 0 > p.getD k 0 := by rw [← hqi]; exact hgt
      obtain ⟨r, k1, hrun, hrest⟩ := ih (q.set i 0) k (i + 1) (by omega)
        (by simpa using hq) hp (by omega) (by omega)
        (by
          intro j hj
          by_cases hji : j = i
          · subst hji
            rw [getD_set_self _ _ _ _ (by omega), if_neg (by omega)]
          · rw [getD_set_other _ _ _ _ _ (Ne.symm hji)]
            exact hdone j (by omega))
        (by
          intro j hj
          rw [getD_set_other _ _ _ _ _ (by omega)]
          exact htodo j (by omega))
        (by
          intro j hj
          by_cases hji : j = i
          · subst hji; exact not_lt.mp hgt1
          · exact hmax j (by omega))
        hfirst
      refine ⟨r, k1, ?_, hrest⟩
      intro fuel hf
      obtain ⟨f, rfl⟩ : ∃ f, fuel = f + 1 := ⟨fuel - 1, by omega⟩
      rw [classify_loop, if_pos (by omega), if_neg hgt]
      simp only [hmod]
      exact hrun f (by omega)

/-- C1 (amended): for every non-empty prediction vector `p` of fewer than 65536
entries `classify` returns, with any fuel from `p.length` on, a vector `r` of
the length of `p`; for length 1 it is `[1]` when `p[0] >= 0.5` and `[0]`
otherwise; for length above 1 it has 1 at the smallest index where `p`
attains its maximum and 0 elsewhere. The four examples of the spec hold. -/
theorem classify_first_max (p : List α) (hne : p ≠ []) (hlen : p.length < 65536) :
    (∃ r, (∀ fuel, p.length ≤ fuel → classify fuel p = some r) ∧ r.length = p.length ∧
      (p.length = 1 → r = [if p.getD 0 0 ≥ 1 / 2 then 1 else 0]) ∧
      (1 < p.length → ∃ k, k < p.length ∧ (∀ j, j < p.length → p.getD j 0 ≤ p.getD k 0) ∧
        (∀ j, j < k → p.getD j 0 < p.getD k 0) ∧
        ∀ j, j < p.length → r.getD j 0 = if j = k then 1 else 0)) ∧
    classify 1 [(7 / 10 : α)] = some [1] ∧
    classify 1 [(3 / 10 : α)] = some [0] ∧
    classify 3 [(2 / 10 : α), 5 / 10, 3 / 10] = some [0, 1, 0] ∧
    classify 2 [(5 / 10 : α), 5 / 10] = some [1, 0] := by
  refine ⟨?_, ?_, ?_, ?_, ?_⟩
  · have hpos : 0 < p.length := List.length_pos.mpr hne
    by_cases h1 : p.length = 1
    · refine ⟨p.set 0 (if p.getD 0 0 ≥ 1 / 2 then 1 else 0), ?_, by simp, ?_, by omega⟩
      · intro fuel _
        rw [classify, if_pos h1]
      · intro _
        match p, h1 with
        | [a], _ => simp
    · obtain ⟨r, k1, hrun, hr, hk1, hmax, hfirst, hres⟩ :=
        classify_loop_spec p (p.length - 1) (p.set 0 1) 0 1 rfl (by simp) hlen (by omega)
          (by omega)
          (by
            intro j hj
            have hj0 : j = 0 := by omega
            subst hj0
            rw [getD_set_self _ _ _ _ hpos]
            simp)
          (by
            intro j hj
            exact getD_set_other _ _ _ _ _ (by omega))
          (by
            intro j hj
            have hj0 : j = 0 := by omega
            subst hj0
            exact le_rfl)
          (by intro j hj; omega)
      refine ⟨r, ?_, hr, by omega, fun _ => ⟨k1, hk1, hmax, hfirst, hres⟩⟩
      intro fuel hf
      rw [classify, if_neg h1]
      exact hrun fuel (by omega)
  · simp [classify]; norm_num
  · simp [classify]; norm_num
  · simp [classify, classify_loop]; norm_num
  · simp [classify, classify_loop]

/-- C1, witness: the amended claim at `[0.2, 0.5, 0.3]`. -/
theorem classify_first_max_witness :
    ([(2 / 10 : ℚ), 5 / 10, 3 / 10] ≠ [] ∧ [(2 / 10 : ℚ), 5 / 10, 3 / 10].length < 65536) ∧
      ∃ r, (∀ fuel, 3 ≤ fuel → classify fuel [(2 / 10 : ℚ), 5 / 10, 3 / 10] = some r) ∧
        r.length = 3 :=
  ⟨⟨by simp, by simp⟩,
    (classify_first_max [(2 / 10 : ℚ), 5 / 10, 3 / 10] (by simp) (by simp)).1.imp
      (fun _ h => ⟨h.1, h.2.1⟩)⟩

/-- On a vector of 65536 or more entries `classify` returns with no fuel. -/
theorem classify_none_of_long (fuel : Nat) (p : List α) (h : 65536 ≤ p.length) :
    classify fuel p = none := by
  rw [classify, if_neg (by omega)]
  exact classify_loop_length_ge fuel _ _ _ _ (by simpa using h) (by norm_num)

/-- C1, counterexample: on the vector of 65536 zeros `classify` does not
return, whatever the fuel. -/
theorem classify_diverges_at_65536 :
    ¬ ∃ fuel r, classify fuel (List.replicate 65536 (0 : ℚ)) = some r := by
  rintro ⟨fuel, r, h⟩
  have hlen : 65536 ≤ (List.replicate 65536 (0 : ℚ)).length := by
    rw [List.length_replicate]
  rw [classify_none_of_long fuel _ hlen] at h
  cases h
/-- The inner product is the initial value plus the sum of the products, taken
over the positions of the first vector. -/
theorem inner_product_eq_sum (a b : List α) (init : α) :
    inner_product a b init = init + ∑ i ∈ Finset.range a.length, a.getD i 0 * b.getD i 0 := by
  induction a generalizing b init with
  | nil => simp [inner_product]
  | cons x a ih =>
    cases b with
    | nil => simp [inner_product]
    | cons y b =>
      have h := ih b (init + x * y)
      simp only [inner_product] at h ⊢
      simp only [List.zip_cons_cons, List.foldl_cons, List.length_cons]
      rw [h, Finset.sum_range_succ']
      simp only [List.getD_cons_succ, List.getD_cons_zero]
      ring

/-- The accumulation is the initial value plus the sum of the entries. -/
theorem accumulate_eq_sum (v : List α) (init : α) :
    accumulate v init = init + ∑ i ∈ Finset.range v.length, v.getD i 0 := by
  induction v generalizing init with
  | nil => simp [accumulate]
  | cons x v ih =>
    have h := ih (init + x)
    simp only [accumulate] at h ⊢
    simp only [List.foldl_cons, List.length_cons]
    rw [h, Finset.sum_range_succ']
    simp only [List.getD_cons_succ, List.getD_cons_zero]
    ring

/-- The vector `new_inputs` holds the transfer values just stored. -/
theorem forward_layer_snd (f : α → α) (tf : String) (layer next : Layer α) (inputs : List α) :
    (forward_layer f tf layer next inputs).2 =
      (forward_layer f tf layer next inputs).1.neurons.map (fun n => n.transfer_value) := rfl

/-- The layer loop of forward propagation, layer by layer: layer `k + 1` of the
result is the layer computed from layer `k` of the result, with the raw
inputs for `k = 0` and the transfer values of layer `k` afterwards. -/
theorem forward_layers_spec (f : α → α) (tf : String) (rest : List (Layer α)) :
    ∀ (layer : Layer α) (inputs : List α),
      (forward_layers f tf layer rest inputs).1.length = rest.length + 1 ∧
      (forward_layers f tf layer rest inputs).1.getD 0 ⟨[], 0⟩ = layer ∧
      ∀ k, k < rest.length →
        (forward_layers f tf layer rest inputs).1.getD (k + 1) ⟨[], 0⟩ =
          (forward_layer f tf ((forward_layers f tf layer rest inputs).1.getD k ⟨[], 0⟩)
            (rest.getD k ⟨[], 0⟩)
            (if k = 0 then inputs
              else ((forward_layers f tf layer rest inputs).1.getD k ⟨[], 0⟩).neurons.map
                (fun n => n.transfer_value))).1 := by
  induction rest with
  | nil => intro layer inputs; simp [forward_layers]
  | cons next rest ih =>
    intro layer inputs
    obtain ⟨h1, h2, h3⟩ := ih (forward_layer f tf layer next inputs).1
      (forward_layer f tf layer next inputs).2
    refine ⟨by simp [forward_layers, h1], by simp [forward_layers], ?_⟩
    intro k hk
    cases k with
    | zero =>
      simp only [forward_layers, List.getD_cons_succ, List.getD_cons_zero, if_true]
      exact h2
    | succ k =>
      have hk1 : k < rest.length := by simpa using hk
      have h := h3 k hk1
      simp only [forward_layers, List.getD_cons_succ]
      rw [h]
      by_cases hk0 : k = 0
      · subst hk0
        simp only [if_true, h2]
        rw [if_neg (by omega)]
        rfl
      · rw [if_neg hk0, if_neg (by omega)]

/-- A projection that ignores what an indexed map changed. -/
theorem map_mapIdx_of {β γ δ : Type} (l : List β) (g : Nat → β → γ) (h : γ → δ) (h1 : β → δ)
    (hh : ∀ i a, h (g i a) = h1 a) : (l.mapIdx g).map h = l.map h1 := by
  apply List.ext_getElem?
  intro i
  simp only [List.getElem?_map, List.getElem?_mapIdx]
  cases l[i]? <;> simp [hh]

/-- Reading an indexed map inside its range. -/
theorem getD_mapIdx_of {β γ : Type} (l : List β) (g : Nat → β → γ) (i : Nat) (b : β) (c : γ)
    (hi : i < l.length) : (l.mapIdx g).getD i c = g i (l.getD i b) := by
  simp [List.getD_eq_getElem?_getD, List.getElem?_mapIdx, List.getElem?_eq_getElem hi]

/-- Reading a map, with the image of the default as default. -/
theorem getD_map_of {β γ : Type} (l : List β) (g : β → γ) (i : Nat) (b : β) (c : γ)
    (hc : g b = c) : (l.map g).getD i c = g (l.getD i b) := by
  subst hc
  simp only [List.getD_eq_getElem?_getD, List.getElem?_map]
  cases l[i]? <;> simp

/-- Loading the inputs keeps the number of neurons. -/
theorem set_inputs_length (f : α → α) (ns : List (Neuron α)) :
    ∀ xs : List α, (set_inputs f ns xs).length = ns.length := by
  induction ns with
  | nil => intro xs; cases xs <;> simp [set_inputs]
  | cons n ns ih => intro xs; cases xs <;> simp [set_inputs, ih]

/-- Loading the inputs keeps every error and every weight. -/
theorem set_inputs_frame (f : α → α) (ns : List (Neuron α)) :
    ∀ xs : List α, (set_inputs f ns xs).map (fun n => (n.error, n.weights_to_next_layer)) =
      ns.map (fun n => (n.error, n.weights_to_next_layer)) := by
  induction ns with
  | nil => intro xs; cases xs <;> simp [set_inputs]
  | cons n ns ih => intro xs; cases xs <;> simp [set_inputs, ih]

/-- Loading the inputs stores the activation of each input. -/
theorem set_inputs_transfer (f : α → α) (ns : List (Neuron α)) :
    ∀ (xs : List α) (i : Nat), i < ns.length → i < xs.length →
      ((set_inputs f ns xs).getD i ⟨0, 0, 0, []⟩).transfer_value = f (xs.getD i 0) := by
  induction ns with
  | nil => intro xs i hi; simp at hi
  | cons n ns ih =>
    intro xs i hi hx
    cases xs with
    | nil => simp at hx
    | cons x xs =>
      cases i with
      | zero => simp [set_inputs]
      | succ i =>
        simp only [set_inputs, List.getD_cons_succ]
        exact ih xs i (by simpa using hi) (by simpa using hx)

/-- One step of the layer loop keeps bias, errors and weights of the layer it
recomputes. -/
theorem forward_layer_frame (f : α → α) (tf : String) (layer next : Layer α) (inputs : List α) :
    (forward_layer f tf layer next inputs).1.forward_frame = next.forward_frame := by
  simp only [forward_layer, Layer.forward_frame]
  congr 1
  exact map_mapIdx_of _ _ _ _ (fun i a => rfl)

/-- One step of the layer loop keeps the size of the layer it recomputes. -/
theorem forward_layer_size (f : α → α) (tf : String) (layer next : Layer α) (inputs : List α) :
    (forward_layer f tf layer next inputs).1.size = next.size := by
  simp [forward_layer, Layer.size]

/-- One step of the layer loop keeps the bias of the layer it recomputes. -/
theorem forward_layer_bias (f : α → α) (tf : String) (layer next : Layer α) (inputs : List α) :
    (forward_layer f tf layer next inputs).1.bias = next.bias := rfl

/-- The transfer value one step of the layer loop stores in neuron `j`. -/
theorem forward_layer_transfer (f : α → α) (tf : String) (layer next : Layer α)
    (inputs : List α) (j : Nat) (hj : j < next.size) :
    ((forward_layer f tf layer next inputs).1.neuron j).transfer_value =
      f (next.bias + ∑ i ∈ Finset.range layer.size,
        (layer.neuron i).weights_to_next_layer.getD j 0 * inputs.getD i 0) := by
  simp only [forward_layer, Layer.neuron]
  rw [getD_mapIdx_of _ _ j ⟨0, 0, 0, []⟩ _ hj]
  simp only [activate_neuron, inner_product_eq_sum, weight_column, List.length_map, Layer.size]
  congr 2
  apply Finset.sum_congr rfl
  intro i _
  rw [getD_map_of layer.neurons (fun n => n.weights_to_next_layer.getD j 0) i ⟨0, 0, 0, []⟩ 0 rfl]

/-- The layer loop keeps bias, errors and weights of every layer. -/
theorem forward_layers_frame (f : α → α) (tf : String) (rest : List (Layer α)) :
    ∀ (layer : Layer α) (inputs : List α),
      (forward_layers f tf layer rest inputs).1.map Layer.forward_frame =
        (layer :: rest).map Layer.forward_frame := by
  induction rest with
  | nil => intro layer inputs; simp [forward_layers]
  | cons next rest ih =>
    intro layer inputs
    simp only [forward_layers, List.map_cons]
    rw [ih]
    simp only [List.map_cons, forward_layer_frame]

/-- When the loop starts from the transfer values of its first layer, the
vector it returns holds the transfer values of its last layer. -/
theorem forward_layers_out (f : α → α) (tf : String) (rest : List (Layer α)) :
    ∀ (layer : Layer α) (inputs : List α),
      inputs = layer.neurons.map (fun n => n.transfer_value) →
      (forward_layers f tf layer rest inputs).2 =
        ((forward_layers f tf layer rest inputs).1.getLastD ⟨[], 0⟩).neurons.map
          (fun n => n.transfer_value) := by
  induction rest with
  | nil => intro layer inputs h; simp [forward_layers, h]
  | cons next rest ih =>
    intro layer inputs _
    have h := ih (forward_layer f tf layer next inputs).1 (forward_layer f tf layer next inputs).2
      (forward_layer_snd f tf layer next inputs)
    have hlen := (forward_layers_spec f tf rest (forward_layer f tf layer next inputs).1
      (forward_layer f tf layer next inputs).2).1
    simp only [forward_layers]
    rw [h]
    cases hl : (forward_layers f tf (forward_layer f tf layer next inputs).1 rest
      (forward_layer f tf layer next inputs).2).1 with
    | nil => rw [hl] at hlen; simp at hlen
    | cons a l => simp

/-- Forward propagation on a network with at least one layer, in a supported
mode. -/
theorem forward_propagate_cons (m : CMath α) (net : NeuralNetwork α) (p : Point α)
    (tf : String) (f d : α → α) (first : Layer α) (rest : List (Layer α))
    (hmode : get_transfer_methods m tf = some (f, d)) (hl : net.layers = first :: rest) :
    net.forward_propagate m p tf =
      Outcome.returned
        (forward_layers f tf { first with neurons := set_inputs f first.neurons p.x } rest p.x).2
        ⟨(forward_layers f tf { first with neurons := set_inputs f first.neurons p.x } rest
          p.x).1⟩ := by
  simp only [NeuralNetwork.forward_propagate, hmode, hl]

/-- The transfer values read off the network `forward_propagate` returns, on an
example whose input length is the input layer size: input neuron `i` holds
`f (x i)` and neuron `j` of a later layer `L` holds `f (bias L + sum over i of
weight (L-1) i j * v i)`, `v i` being `x i` when `L = 1` and the transfer value
of neuron `i` of layer `L - 1` otherwise. Layers, sizes and weights are those
of the returned network. -/
theorem forward_propagate_stored (m : CMath α) (net : NeuralNetwork α) (p : Point α)
    (tf : String) (f d : α → α) (hmode : get_transfer_methods m tf = some (f, d))
    (hx : p.x.length = (net.layer 0).size) :
    ∃ out net1, net.forward_propagate m p tf = Outcome.returned out net1 ∧
      (∀ i, i < (net1.layer 0).size → (net1.neuron 0 i).transfer_value = f (p.x.getD i 0)) ∧
      ∀ L j, 1 ≤ L → L < net1.layers.length → j < (net1.layer L).size →
        (net1.neuron L j).transfer_value =
          f ((net1.layer L).bias + ∑ i ∈ Finset.range (net1.layer (L - 1)).size,
            net1.weight (L - 1) i j *
              (if L = 1 then p.x.getD i 0 else (net1.neuron (L - 1) i).transfer_value)) := by
  cases hl : net.layers with
  | nil =>
    refine ⟨p.x, net, by simp [NeuralNetwork.forward_propagate, hmode, hl], ?_, ?_⟩
    · intro i hi
      simp [NeuralNetwork.layer, hl, Layer.size] at hi
    · intro L j _ hL
      simp [hl] at hL
  | cons first rest =>
    obtain ⟨h1, h2, h3⟩ := forward_layers_spec f tf rest
      { first with neurons := set_inputs f first.neurons p.x } p.x
    refine ⟨_, _, forward_propagate_cons m net p tf f d first rest hmode hl, ?_, ?_⟩
    · intro i hi
      simp only [NeuralNetwork.neuron, NeuralNetwork.layer, Layer.neuron, Layer.size, h2] at hi ⊢
      rw [set_inputs_length] at hi
      refine set_inputs_transfer f first.neurons p.x i hi ?_
      rw [hx]
      simpa [NeuralNetwork.layer, hl, Layer.size] using hi
    · intro L j hL1 hL hj
      obtain ⟨k, rfl⟩ : ∃ k, L = k + 1 := ⟨L - 1, by omega⟩
      have hk : k < rest.length := by
        simp only [h1] at hL
        omega
      have h := h3 k hk
      simp only [NeuralNetwork.neuron, NeuralNetwork.layer, NeuralNetwork.weight,
        Nat.add_sub_cancel] at hj ⊢
      rw [h] at hj ⊢
      rw [forward_layer_size] at hj
      rw [forward_layer_transfer f tf _ _ _ j hj, forward_layer_bias]
      congr 2
      apply Finset.sum_congr rfl
      intro i _
      congr 1
      by_cases hk0 : k = 0
      · subst hk0
        simp
      · rw [if_neg hk0, if_neg (by omega)]
        exact getD_map_of _ (fun n : Neuron α => n.transfer_value) i ⟨0, 0, 0, []⟩ 0 rfl

/-- C7: `forward_propagate` in a supported mode returns and leaves the list of
layers with, for each layer, the same bias and, for each neuron in order, the
same error and the same list of weights: the numbers of layers, neurons and
weights, every weight, every bias and every error are as before the call. -/
theorem forward_propagate_frame (m : CMath α) (net : NeuralNetwork α) (p : Point α)
    (tf : String) (f d : α → α) (hmode : get_transfer_methods m tf = some (f, d)) :
    ∃ out net1, net.forward_propagate m p tf = Outcome.returned out net1 ∧
      net1.layers.map Layer.forward_frame = net.layers.map Layer.forward_frame := by
  cases hl : net.layers with
  | nil =>
    exact ⟨p.x, net, by simp [NeuralNetwork.forward_propagate, hmode, hl], by simp [hl]⟩
  | cons first rest =>
    refine ⟨_, _, forward_propagate_cons m net p tf f d first rest hmode hl, ?_⟩
    rw [forward_layers_frame]
    simp [Layer.forward_frame, set_inputs_frame]

/-- C6 (amended): `forward_propagate` in a supported mode, on an example whose
input length is the input layer size, returns the output layer's transfer
values when the network has two layers or more; on a network of one layer it
returns the raw input `x`, while that layer's transfer values are `f (x i)`. -/
theorem forward_propagate_output (m : CMath α) (net : NeuralNetwork α) (p : Point α)
    (tf : String) (f d : α → α) (hmode : get_transfer_methods m tf = some (f, d))
    (hx : p.x.length = (net.layer 0).size) :
    ∃ out net1, net.forward_propagate m p tf = Outcome.returned out net1 ∧
      (2 ≤ net.layers.length → out = net1.back.neurons.map (fun n => n.transfer_value)) ∧
      (net.layers.length = 1 → out = p.x ∧
        net1.back.neurons.map (fun n => n.transfer_value) = p.x.map f) := by
  cases hl : net.layers with
  | nil =>
    exact ⟨p.x, net, by simp [NeuralNetwork.forward_propagate, hmode, hl], by simp, by simp⟩
  | cons first rest =>
    refine ⟨_, _, forward_propagate_cons m net p tf f d first rest hmode hl, ?_, ?_⟩
    · intro h2
      cases rest with
      | nil => simp at h2
      | cons next rest =>
        simp only [forward_layers, NeuralNetwork.back]
        rw [forward_layers_out f tf rest _ _ (forward_layer_snd f tf _ _ _)]
        have hlen := (forward_layers_spec f tf rest (forward_layer f tf
          { first with neurons := set_inputs f first.neurons p.x } next p.x).1
          (forward_layer f tf { first with neurons := set_inputs f first.neurons p.x }
            next p.x).2).1
        cases hq : (forward_layers f tf (forward_layer f tf
          { first with neurons := set_inputs f first.neurons p.x } next p.x).1 rest
          (forward_layer f tf { first with neurons := set_inputs f first.neurons p.x }
            next p.x).2).1 with
        | nil => rw [hq] at hlen; simp at hlen
        | cons a l => simp
    · intro h1
      have hrest : rest = [] := by
        cases rest with
        | nil => rfl
        | cons a l => simp at h1
      subst hrest
      refine ⟨rfl, ?_⟩
      simp only [forward_layers, NeuralNetwork.back, List.getLastD_cons, List.getLastD_nil]
      have hx1 : p.x.length = first.neurons.length := by
        simpa [NeuralNetwork.layer, hl, Layer.size] using hx
      apply List.ext_getElem
      · simp [set_inputs_length, hx1]
      · intro i h1 h2
        simp only [List.length_map, set_inputs_length] at h1 h2
        have := set_inputs_transfer f first.neurons p.x i h1 h2
        simpa [List.getD_eq_getElem?_getD, List.getElem?_eq_getElem, h1, h2,
          set_inputs_length] using this

/-- C2, counterexample: on `small_network` with input `[-1]` in mode `relu` the
hidden neuron ends with transfer value `relu (0 + (-1) * (-1)) = 1`, while the
claimed `f (bias + weight * transfer value of the input neuron)` is
`relu (0 + (-1) * relu (-1)) = 0`. -/
theorem forward_first_hidden_layer_reads_raw_input :
    ∃ out net1, (small_network ℝ).forward_propagate ⟨Real.exp, Real.tanh⟩ ⟨[-1], [1]⟩ "relu" =
        Outcome.returned out net1 ∧
      (net1.neuron 1 0).transfer_value = 1 ∧
      relu ((net1.layer 1).bias + ∑ i ∈ Finset.range (net1.layer 0).size,
        net1.weight 0 i 0 * (net1.neuron 0 i).transfer_value) = 0 := by
  refine ⟨[1], ⟨[⟨[⟨-1, 0, 0, [-1]⟩], 5⟩, ⟨[⟨1, 1, 0, []⟩], 0⟩]⟩, ?_, ?_, ?_⟩
  · simp [small_network, NeuralNetwork.forward_propagate, get_transfer_methods, forward_layers,
      forward_layer, activate_neuron, set_inputs, inner_product, weight_column, relu,
      is_classification]
  · simp [NeuralNetwork.neuron, NeuralNetwork.layer, Layer.neuron]
  · simp [NeuralNetwork.neuron, NeuralNetwork.layer, Layer.neuron, relu, Layer.size,
      NeuralNetwork.weight]

/-- C7, witness: the frame property on `example_network` in mode `relu`. -/
theorem forward_propagate_frame_witness :
    ∃ out net1, (example_network ℝ).forward_propagate ⟨Real.exp, Real.tanh⟩ (example_point ℝ)
        "relu" = Outcome.returned out net1 ∧
      net1.layers.map Layer.forward_frame = (example_network ℝ).layers.map Layer.forward_frame :=
  forward_propagate_frame ⟨Real.exp, Real.tanh⟩ (example_network ℝ) (example_point ℝ) "relu"
    relu relu_derivative (by simp [get_transfer_methods])

/-- C6, witness: the amended claim on `example_network` in mode `relu`. -/
theorem forward_propagate_output_witness :
    ∃ out net1, (example_network ℝ).forward_propagate ⟨Real.exp, Real.tanh⟩ (example_point ℝ)
        "relu" = Outcome.returned out net1 ∧
      (2 ≤ (example_network ℝ).layers.length →
        out = net1.back.neurons.map (fun n => n.transfer_value)) ∧
      ((example_network ℝ).layers.length = 1 → out = (example_point ℝ).x ∧
        net1.back.neurons.map (fun n => n.transfer_value) = (example_point ℝ).x.map relu) :=
  forward_propagate_output ⟨Real.exp, Real.tanh⟩ (example_network ℝ) (example_point ℝ) "relu"
    relu relu_derivative (by simp [get_transfer_methods])
    (by simp [example_network, example_point, NeuralNetwork.layer, Layer.size])

/-- C6, counterexample: on a network of one layer with input `[-1]` in mode
`relu`, `forward_propagate` returns `[-1]` while the transfer value stored in
the output layer is `relu (-1) = 0`. -/
theorem single_layer_forward_returns_raw_input :
    ∃ out net1, (single_layer_network ℝ).forward_propagate ⟨Real.exp, Real.tanh⟩ ⟨[-1], [1]⟩
        "relu" = Outcome.returned out net1 ∧
      out = [-1] ∧ net1.back.neurons.map (fun n => n.transfer_value) = [0] := by
  refine ⟨[-1], ⟨[⟨[⟨-1, 0, 0, []⟩], 0⟩]⟩, ?_, rfl, ?_⟩
  · simp [single_layer_network, NeuralNetwork.forward_propagate, get_transfer_methods,
      forward_layers, set_inputs, relu]
  · simp [NeuralNetwork.back]

/-- Reading a reversed list. -/
theorem getD_reverse_of {β : Type} (l : List β) (i : Nat) (b : β) (h : i < l.length) :
    l.reverse.getD i b = l.getD (l.length - 1 - i) b := by
  simp [List.getD_eq_getElem?_getD, List.getElem?_reverse h]

/-- Reading a map inside its range. -/
theorem getD_map_lt {β γ : Type} (l : List β) (g : β → γ) (i : Nat) (b : β) (c : γ)
    (hi : i < l.length) : (l.map g).getD i c = g (l.getD i b) := by
  simp [List.getD_eq_getElem?_getD, List.getElem?_map, List.getElem?_eq_getElem hi]

/-- The output layer of a network given by its layers in reverse order. -/
theorem back_mk_reverse (l : Layer α) (ls : List (Layer α)) :
    (⟨(l :: ls).reverse⟩ : NeuralNetwork α).back = l := by
  simp [NeuralNetwork.back]

/-- One step of the reverse loop keeps bias, activated values, transfer values
and weights. -/
theorem backward_layer_frame (f : α → α) (layer : Layer α) (errors : List α) :
    (backward_layer f layer errors).backward_frame = layer.backward_frame := by
  simp [backward_layer, Layer.backward_frame]

/-- One step of the reverse loop keeps the size of the layer. -/
theorem backward_layer_size (f : α → α) (layer : Layer α) (errors : List α) :
    (backward_layer f layer errors).size = layer.size := by
  simp [backward_layer, Layer.size]

/-- The error one step of the reverse loop stores in neuron `i`. -/
theorem backward_layer_error (f : α → α) (layer : Layer α) (errors : List α) (i : Nat)
    (hi : i < layer.size) :
    ((backward_layer f layer errors).neuron i).error =
      (∑ j ∈ Finset.range errors.length,
        errors.getD j 0 * (layer.neuron i).weights_to_next_layer.getD j 0) *
        f (layer.neuron i).transfer_value := by
  simp only [backward_layer, Layer.neuron]
  rw [getD_map_lt layer.neurons _ i ⟨0, 0, 0, []⟩ _ hi]
  simp only [inner_product_eq_sum, zero_add]

/-- One step of the reverse loop keeps the weights and the transfer value of
every neuron. -/
theorem backward_layer_keeps (f : α → α) (layer : Layer α) (errors : List α) (i : Nat) :
    ((backward_layer f layer errors).neuron i).weights_to_next_layer =
        (layer.neuron i).weights_to_next_layer ∧
      ((backward_layer f layer errors).neuron i).transfer_value =
        (layer.neuron i).transfer_value := by
  simp only [backward_layer, Layer.neuron, List.getD_eq_getElem?_getD, List.getElem?_map]
  cases layer.neurons[i]? <;> simp

/-- The reverse loop keeps bias, activated values, transfer values and weights
of every layer. -/
theorem backward_pass_frame (f : α → α) (before : List (Layer α)) :
    ∀ errors : List α,
      (backward_pass f before errors).map Layer.backward_frame =
        before.map Layer.backward_frame := by
  induction before with
  | nil => intro errors; simp [backward_pass]
  | cons layer rest ih =>
    intro errors
    simp only [backward_pass, List.map_cons, ih, backward_layer_frame]

/-- The reverse loop keeps the number of layers. -/
theorem backward_pass_length (f : α → α) (before : List (Layer α)) :
    ∀ errors : List α, (backward_pass f before errors).length = before.length := by
  induction before with
  | nil => intro errors; simp [backward_pass]
  | cons layer rest ih => intro errors; simp [backward_pass, ih]

/-- The reverse loop, layer by layer: each layer is computed from the errors
just stored in the layer processed before it. -/
theorem backward_pass_spec (f : α → α) (before : List (Layer α)) :
    ∀ (prev : Layer α) (k : Nat), k < before.length →
      (prev :: backward_pass f before (prev.neurons.map (fun n => n.error))).getD (k + 1)
          ⟨[], 0⟩ =
        backward_layer f (before.getD k ⟨[], 0⟩)
          (((prev :: backward_pass f before (prev.neurons.map (fun n => n.error))).getD k
            ⟨[], 0⟩).neurons.map (fun n => n.error)) := by
  induction before with
  | nil => intro prev k hk; simp at hk
  | cons layer rest ih =>
    intro prev k hk
    cases k with
    | zero => simp [backward_pass]
    | succ k =>
      have h := ih (backward_layer f layer (prev.neurons.map (fun n => n.error))) k
        (by simpa using hk)
      simp only [backward_pass, List.getD_cons_succ] at h ⊢
      exact h

/-- Backpropagation on a network with at least one layer, in a supported
mode. -/
theorem backpropagate_rev (m : CMath α) (net : NeuralNetwork α) (p : Point α)
    (tf : String) (f d : α → α) (back : Layer α) (before : List (Layer α))
    (hmode : get_transfer_methods m tf = some (f, d))
    (hl : net.layers.reverse = back :: before) :
    net.backpropagate m p tf =
      Outcome.returned
        (accumulate ((back.neurons.mapIdx (output_error d p.y)).map (fun n => n.error)) 0)
        ⟨(({ back with neurons := back.neurons.mapIdx (output_error d p.y) } : Layer α) ::
          backward_pass f before
            ((back.neurons.mapIdx (output_error d p.y)).map (fun n => n.error))).reverse⟩ := by
  simp only [NeuralNetwork.backpropagate, hmode, hl]

/-- Backpropagation on a network without layers. -/
theorem backpropagate_nil (m : CMath α) (net : NeuralNetwork α) (p : Point α)
    (tf : String) (f d : α → α)
    (hmode : get_transfer_methods m tf = some (f, d)) (hl : net.layers = []) :
    net.backpropagate m p tf = Outcome.returned 0 net := by
  simp [NeuralNetwork.backpropagate, hmode, hl]

/-- The output layer is the head of the reversed layer list. -/
theorem back_of_reverse (net : NeuralNetwork α) (back : Layer α) (before : List (Layer α))
    (hl : net.layers.reverse = back :: before) : net.back = back := by
  have h : net.layers = (back :: before).reverse := by
    rw [← hl, List.reverse_reverse]
  simp [NeuralNetwork.back, h]

/-- C8: `backpropagate` in a supported mode returns and leaves the list of
layers with, for each layer, the same bias and, for each neuron in order, the
same activated value, the same transfer value and the same list of weights:
only error fields can differ from the state before the call. -/
theorem backpropagate_frame (m : CMath α) (net : NeuralNetwork α) (p : Point α)
    (tf : String) (f d : α → α) (hmode : get_transfer_methods m tf = some (f, d)) :
    ∃ cost net1, net.backpropagate m p tf = Outcome.returned cost net1 ∧
      net1.layers.map Layer.backward_frame = net.layers.map Layer.backward_frame := by
  cases hl : net.layers.reverse with
  | nil =>
    have hnil : net.layers = [] := by simpa using hl
    exact ⟨0, net, backpropagate_nil m net p tf f d hmode hnil, rfl⟩
  | cons back before =>
    refine ⟨_, _, backpropagate_rev m net p tf f d back before hmode hl, ?_⟩
    have h : net.layers = (back :: before).reverse := by
      rw [← hl, List.reverse_reverse]
    rw [h]
    simp only [List.map_reverse, List.map_cons, backward_pass_frame]
    congr 2
    simp only [Layer.backward_frame]
    congr 1
    exact map_mapIdx_of _ _ _ _ (fun i a => rfl)

/-- C3: `backpropagate` in a supported mode with derivative `d` returns, stores
in every output neuron `k` the error `(y k - t k) ^ 2 * d (t k)`, where `t k`
is the transfer value of that neuron when the call starts, and returns the
sum of the errors stored in the output layer. -/
theorem backpropagate_output_errors (m : CMath α) (net : NeuralNetwork α) (p : Point α)
    (tf : String) (f d : α → α) (hmode : get_transfer_methods m tf = some (f, d)) :
    ∃ cost net1, net.backpropagate m p tf = Outcome.returned cost net1 ∧
      (∀ k, k < net.back.size →
        (net1.back.neuron k).error =
          (p.y.getD k 0 - (net.back.neuron k).transfer_value) ^ 2 *
            d (net.back.neuron k).transfer_value) ∧
      cost = ∑ k ∈ Finset.range net.back.size, (net1.back.neuron k).error := by
  cases hl : net.layers.reverse with
  | nil =>
    have hnil : net.layers = [] := by simpa using hl
    refine ⟨0, net, backpropagate_nil m net p tf f d hmode hnil, ?_, ?_⟩
    · intro k hk
      simp [NeuralNetwork.back, hnil, Layer.size] at hk
    · simp [NeuralNetwork.back, hnil, Layer.size]
  | cons back before =>
    refine ⟨_, _, backpropagate_rev m net p tf f d back before hmode hl, ?_, ?_⟩
    · intro k hk
      rw [back_of_reverse net back before hl] at hk ⊢
      rw [back_mk_reverse]
      simp only [Layer.neuron]
      rw [getD_mapIdx_of _ _ k ⟨0, 0, 0, []⟩ _ hk]
      simp [output_error]
    · rw [back_of_reverse net back before hl]
      rw [back_mk_reverse]
      rw [accumulate_eq_sum, zero_add]
      simp only [List.length_map, List.length_mapIdx, Layer.size, Layer.neuron]
      apply Finset.sum_congr rfl
      intro k _
      exact getD_map_of _ (fun n : Neuron α => n.error) k ⟨0, 0, 0, []⟩ 0 rfl

/-- After backpropagation every layer but the last is the result of one step
of the reverse loop on the errors stored in the layer after it. -/
theorem backpropagate_layer (f d : α → α) (y : List α) (back : Layer α)
    (before : List (Layer α)) (L : Nat) (hL : L + 1 < before.length + 1) :
    ∃ B : Layer α,
      ((⟨(({ back with neurons := back.neurons.mapIdx (output_error d y) } : Layer α) ::
        backward_pass f before
          ((back.neurons.mapIdx (output_error d y)).map (fun n => n.error))).reverse⟩ :
            NeuralNetwork α).layer L) =
        backward_layer f B
          (((⟨(({ back with neurons := back.neurons.mapIdx (output_error d y) } : Layer α) ::
            backward_pass f before
              ((back.neurons.mapIdx (output_error d y)).map (fun n => n.error))).reverse⟩ :
                NeuralNetwork α).layer (L + 1)).neurons.map (fun n => n.error)) := by
  have hlen : (({ back with neurons := back.neurons.mapIdx (output_error d y) } : Layer α) ::
      backward_pass f before
        ((back.neurons.mapIdx (output_error d y)).map (fun n => n.error))).length =
      before.length + 1 := by
    simp [backward_pass_length]
  refine ⟨before.getD (before.length - 1 - L) ⟨[], 0⟩, ?_⟩
  simp only [NeuralNetwork.layer]
  rw [getD_reverse_of _ L _ (by omega), getD_reverse_of _ (L + 1) _ (by omega), hlen]
  have h := backward_pass_spec f before
    ({ back with neurons := back.neurons.mapIdx (output_error d y) } : Layer α)
    (before.length - 1 - L) (by omega)
  have e1 : before.length + 1 - 1 - L = before.length - 1 - L + 1 := by omega
  have e2 : before.length + 1 - 1 - (L + 1) = before.length - 1 - L := by omega
  rw [e1, e2]
  exact h

/-- The errors read off the network `backpropagate` returns: neuron `i` of a
layer `L` before the last has error `(sum over j of error (L+1) j *
weight L i j) * f (transfer value L i)`. Layers, sizes, weights and transfer
values are those of the returned network. -/
theorem backpropagate_stored_errors (m : CMath α) (net : NeuralNetwork α) (p : Point α)
    (tf : String) (f d : α → α) (hmode : get_transfer_methods m tf = some (f, d)) :
    ∃ cost net1, net.backpropagate m p tf = Outcome.returned cost net1 ∧
      ∀ L i, L + 1 < net1.layers.length → i < (net1.layer L).size →
        (net1.neuron L i).error =
          (∑ j ∈ Finset.range (net1.layer (L + 1)).size,
            (net1.neuron (L + 1) j).error * net1.weight L i j) *
            f (net1.neuron L i).transfer_value := by
  cases hl : net.layers.reverse with
  | nil =>
    have hnil : net.layers = [] := by simpa using hl
    refine ⟨0, net, backpropagate_nil m net p tf f d hmode hnil, ?_⟩
    intro L i hL
    simp [hnil] at hL
  | cons back before =>
    refine ⟨_, _, backpropagate_rev m net p tf f d back before hmode hl, ?_⟩
    intro L i hL hi
    have hL1 : L + 1 < before.length + 1 := by
      simpa [backward_pass_length] using hL
    obtain ⟨B, hB⟩ := backpropagate_layer f d p.y back before L hL1
    simp only [NeuralNetwork.neuron, NeuralNetwork.weight]
    rw [hB] at hi ⊢
    rw [backward_layer_size] at hi
    rw [backward_layer_error f B _ i hi, (backward_layer_keeps f B _ i).1,
      (backward_layer_keeps f B _ i).2]
    simp only [List.length_map, Layer.size, Layer.neuron]
    congr 1
    apply Finset.sum_congr rfl
    intro j _
    congr 1
    exact getD_map_of _ (fun n : Neuron α => n.error) j ⟨0, 0, 0, []⟩ 0 rfl

/-- The accumulation is the initial value plus the sum of the list. -/
theorem accumulate_eq_list_sum (v : List α) (init : α) : accumulate v init = init + v.sum := by
  induction v generalizing init with
  | nil => simp [accumulate]
  | cons x v ih =>
    have h := ih (init + x)
    simp only [accumulate] at h ⊢
    simp only [List.foldl_cons, List.sum_cons]
    rw [h]
    ring

/-- The weight one step of the update loop stores at position `j` of neuron
`i`. -/
theorem update_layer_weight (rate : α) (layer next : Layer α) (inputs : List α) (i j : Nat)
    (hi : i < layer.size) (hj : j < next.size)
    (hw : j < (layer.neuron i).weights_to_next_layer.length) :
    ((update_layer rate layer next inputs).neuron i).weights_to_next_layer.getD j 0 =
      (layer.neuron i).weights_to_next_layer.getD j 0 +
        rate * (next.neuron j).error * inputs.getD i 0 := by
  simp only [update_layer, Layer.neuron] at hw ⊢
  rw [getD_mapIdx_of _ _ i ⟨0, 0, 0, []⟩ _ hi]
  simp only [update_neuron]
  rw [getD_mapIdx_of _ _ j 0 _ hw]
  have hj1 : j < next.neurons.length := hj
  simp [List.getElem?_eq_getElem hj1, List.getD_eq_getElem?_getD]

/-- The update loop, layer by layer: layer `k` is updated from the errors of
layer `k + 1`, with the raw inputs for `k = 0` and the transfer values of
layer `k` afterwards. -/
theorem update_layers_spec (rate : α) (rest : List (Layer α)) :
    ∀ (layer : Layer α) (inputs : List α) (k : Nat), k < rest.length →
      (update_layers rate layer rest inputs).getD k ⟨[], 0⟩ =
        update_layer rate ((layer :: rest).getD k ⟨[], 0⟩) ((layer :: rest).getD (k + 1) ⟨[], 0⟩)
          (if k = 0 then inputs
            else ((layer :: rest).getD k ⟨[], 0⟩).neurons.map (fun n => n.transfer_value)) := by
  induction rest with
  | nil => intro layer inputs k hk; simp at hk
  | cons next rest ih =>
    intro layer inputs k hk
    cases k with
    | zero => simp [update_layers]
    | succ k =>
      have h := ih next (next.neurons.map (fun n => n.transfer_value)) k (by simpa using hk)
      have hne : ¬ (k + 1 = 0) := by omega
      simp only [update_layers, List.getD_cons_succ, if_neg hne]
      rw [h]
      by_cases hk0 : k = 0
      · subst hk0; simp
      · rw [if_neg hk0]; rfl

/-- C5: after `update_weights` on an example whose input length is the input
layer size, every weight from neuron `i` of layer `L` to neuron `j` of layer
`L + 1` is the old weight plus `rate * error (L+1) j * v`, where `v` is the
raw input `x i` for `L = 0` and the transfer value of neuron `i` of layer `L`
for `L >= 1`, and `rate` is `lr`, or `lr / (1 + lr * sum x)` when the rate is
normalised (with `1 + lr * sum x` not zero). -/
theorem update_weights_rule (net : NeuralNetwork α) (p : Point α) (lr : α) (normalize_lr : Bool)
    (_hx : p.x.length = (net.layer 0).size)
    (_hden : normalize_lr = true → 1 + lr * p.x.sum ≠ 0)
    (L i j : Nat) (hL : L + 1 < net.layers.length) (hi : i < (net.layer L).size)
    (hj : j < (net.layer (L + 1)).size)
    (hw : j < (net.neuron L i).weights_to_next_layer.length) :
    (net.update_weights p lr normalize_lr).weight L i j =
      net.weight L i j +
        (if normalize_lr = true then lr / (1 + lr * p.x.sum) else lr) *
          (net.neuron (L + 1) j).error *
          (if L = 0 then p.x.getD i 0 else (net.neuron L i).transfer_value) := by
  cases hl : net.layers with
  | nil => simp [hl] at hL
  | cons first rest =>
    have hk : L < rest.length := by
      simp only [hl, List.length_cons] at hL
      omega
    simp only [NeuralNetwork.update_weights, hl, NeuralNetwork.weight, NeuralNetwork.neuron,
      NeuralNetwork.layer] at hi hj hw ⊢
    rw [update_layers_spec _ rest first p.x L hk]
    rw [update_layer_weight _ _ _ _ i j hi hj hw]
    rw [accumulate_eq_list_sum, zero_add]
    congr 2
    by_cases hL0 : L = 0
    · rw [if_pos hL0, if_pos hL0]
    · rw [if_neg hL0, if_neg hL0]
      exact getD_map_of _ (fun n : Neuron α => n.transfer_value) i ⟨0, 0, 0, []⟩ 0 rfl

/-- A name outside the seven supported ones takes the last branch. -/
theorem get_transfer_methods_none (m : CMath α) (name : String)
    (h : name ∉ ["relu", "relu_regression", "sigmoid", "sigmoid_regression", "tanh",
      "tanh_regression", "none"]) : get_transfer_methods m name = none := by
  simp only [List.mem_cons, List.mem_singleton, List.not_mem_nil, not_or, or_false] at h
  obtain ⟨h1, h2, h3, h4, h5, h6, h7⟩ := h
  simp [get_transfer_methods, h1, h2, h3, h4, h5, h6, h7]

/-- C9: `get_transfer_methods` returns a pair exactly for the seven supported
names and fails (`none`, the fatal configuration error) for every other
string; the pairs are `(max 0 z, 1 if a > 0 else 0)` for relu,
`(1 / (1 + exp (-z)), a * (1 - a))` for sigmoid, `(tanh z, 1 - tanh a ^ 2)` for
tanh and `(z, 1)` for none, and each `_regression` name returns the pair of
its base name. -/
theorem get_transfer_methods_table (m : CMath α) (name : String) :
    ((∃ pair, get_transfer_methods m name = some pair) ↔
      name ∈ ["relu", "relu_regression", "sigmoid", "sigmoid_regression", "tanh",
        "tanh_regression", "none"]) ∧
    (get_transfer_methods m name = none ↔
      name ∉ ["relu", "relu_regression", "sigmoid", "sigmoid_regression", "tanh",
        "tanh_regression", "none"]) ∧
    get_transfer_methods m "relu" =
      some (fun z => max 0 z, fun a => if a > 0 then 1 else 0) ∧
    get_transfer_methods m "sigmoid" =
      some (fun z => 1 / (1 + m.exp (-z)), fun a => a * (1 - a)) ∧
    get_transfer_methods m "tanh" =
      some (fun z => m.tanh z, fun a => 1 - m.tanh a ^ 2) ∧
    get_transfer_methods m "none" = some (fun z => z, fun _ => 1) ∧
    get_transfer_methods m "relu_regression" = get_transfer_methods m "relu" ∧
    get_transfer_methods m "sigmoid_regression" = get_transfer_methods m "sigmoid" ∧
    get_transfer_methods m "tanh_regression" = get_transfer_methods m "tanh" := by
  have hsome : name ∈ ["relu", "relu_regression", "sigmoid", "sigmoid_regression", "tanh",
      "tanh_regression", "none"] → ∃ pair, get_transfer_methods m name = some pair := by
    intro h
    simp only [List.mem_cons, List.mem_singleton, List.not_mem_nil, or_false] at h
    rcases h with h | h | h | h | h | h | h <;> subst h <;> simp [get_transfer_methods]
  refine ⟨⟨?_, hsome⟩, ⟨?_, get_transfer_methods_none m name⟩, ?_, ?_, ?_, ?_, ?_, ?_, ?_⟩
  · rintro ⟨pair, hp⟩
    by_contra hn
    rw [get_transfer_methods_none m name hn] at hp
    cases hp
  · intro hnone hin
    obtain ⟨pair, hp⟩ := hsome hin
    rw [hnone] at hp
    cases hp
  · simp only [get_transfer_methods]
    simp only [String.reduceEq, or_self, if_false, if_true, or_false, or_true]
    rfl
  · simp [get_transfer_methods]
    constructor
    · funext z; simp [sigmoid]
    · rfl
  · simp [get_transfer_methods]
    rfl
  · simp [get_transfer_methods]
    exact ⟨rfl, rfl⟩
  · simp [get_transfer_methods]
  · simp [get_transfer_methods]
  · simp [get_transfer_methods]

/-- C10: for a mode name outside the seven supported ones, `forward_propagate`,
`backpropagate`, `predict` (on any dataset) and `train` (on a non-empty dataset
whose first example fits the input layer) end in the fatal configuration
error with the network in the state it had before the call. -/
theorem unknown_mode_is_fatal [FloorRing α] (m : CMath α)
    (generate_dataset : Nat → Nat → Nat → String → List (Point α)) (net : NeuralNetwork α)
    (p : Point α) (ds : List (Point α)) (tf : String) (lr : α) (dataset_type : String)
    (normalize_lr : Bool)
    (hmode : tf ∉ ["relu", "relu_regression", "sigmoid", "sigmoid_regression", "tanh",
      "tanh_regression", "none"])
    (hx : p.x.length = (net.layer 0).size) :
    net.forward_propagate m p tf = Outcome.fatal net ∧
    net.backpropagate m p tf = Outcome.fatal net ∧
    (∀ (fuel : Nat) (dataset : List (Point α)),
      net.predict m fuel dataset tf = some (Outcome.fatal net)) ∧
    (∀ fuel : Nat,
      net.train m generate_dataset (fuel + 1) (p :: ds) tf lr dataset_type normalize_lr =
        some (Outcome.fatal net)) := by
  have hnone := get_transfer_methods_none m tf hmode
  have hf : net.forward_propagate m p tf = Outcome.fatal net := by
    simp [NeuralNetwork.forward_propagate, hnone]
  refine ⟨hf, ?_, ?_, ?_⟩
  · simp [NeuralNetwork.backpropagate, hnone]
  · intro fuel dataset
    simp [NeuralNetwork.predict, hnone]
  · intro fuel
    simp [NeuralNetwork.train, train_with, hx, train_loop, train_pass, train_step, hf, Cost.ge,
      Cost.isnan]
    norm_num

/-- C3, witness: the claim on `example_network` in mode `none`. -/
theorem backpropagate_output_errors_witness :
    ∃ cost net1, (example_network ℝ).backpropagate ⟨Real.exp, Real.tanh⟩ (example_point ℝ)
        "none" = Outcome.returned cost net1 ∧
      (∀ k, k < (example_network ℝ).back.size →
        (net1.back.neuron k).error =
          ((example_point ℝ).y.getD k 0 - ((example_network ℝ).back.neuron k).transfer_value) ^ 2 *
            none_derivative ((example_network ℝ).back.neuron k).transfer_value) ∧
      cost = ∑ k ∈ Finset.range (example_network ℝ).back.size, (net1.back.neuron k).error :=
  backpropagate_output_errors ⟨Real.exp, Real.tanh⟩ (example_network ℝ) (example_point ℝ) "none"
    none_function none_derivative (by simp [get_transfer_methods])

/-- C8, witness: the frame property on `example_network` in mode `sigmoid`. -/
theorem backpropagate_frame_witness :
    ∃ cost net1, (example_network ℝ).backpropagate ⟨Real.exp, Real.tanh⟩ (example_point ℝ)
        "sigmoid" = Outcome.returned cost net1 ∧
      net1.layers.map Layer.backward_frame =
        (example_network ℝ).layers.map Layer.backward_frame :=
  backpropagate_frame ⟨Real.exp, Real.tanh⟩ (example_network ℝ) (example_point ℝ) "sigmoid"
    (sigmoid ⟨Real.exp, Real.tanh⟩) sigmoid_derivative (by simp [get_transfer_methods])

/-- C5, witness: the first weight of `example_network`, with learning rate
`1/2`, normalised. -/
theorem update_weights_rule_witness :
    ((example_network ℝ).update_weights (example_point ℝ) (1 / 2) true).weight 0 0 0 =
      (example_network ℝ).weight 0 0 0 +
        (if true = true then (1 / 2 : ℝ) / (1 + 1 / 2 * (example_point ℝ).x.sum) else 1 / 2) *
          ((example_network ℝ).neuron (0 + 1) 0).error *
          (if 0 = 0 then (example_point ℝ).x.getD 0 0
            else ((example_network ℝ).neuron 0 0).transfer_value) :=
  update_weights_rule (example_network ℝ) (example_point ℝ) (1 / 2) true
    (by simp [example_network, example_point, NeuralNetwork.layer, Layer.size])
    (by simp [example_point])
    0 0 0
    (by simp [example_network])
    (by simp [example_network, NeuralNetwork.layer, Layer.size])
    (by simp [example_network, NeuralNetwork.layer, Layer.size])
    (by simp [example_network, NeuralNetwork.neuron, NeuralNetwork.layer, Layer.neuron])

/-- C10, witness: the mode name `bogus` on `example_network`. -/
theorem unknown_mode_is_fatal_witness :
    (example_network ℝ).forward_propagate ⟨Real.exp, Real.tanh⟩ (example_point ℝ) "bogus" =
        Outcome.fatal (example_network ℝ) ∧
    (example_network ℝ).backpropagate ⟨Real.exp, Real.tanh⟩ (example_point ℝ) "bogus" =
        Outcome.fatal (example_network ℝ) ∧
    (∀ (fuel : Nat) (dataset : List (Point ℝ)),
      (example_network ℝ).predict ⟨Real.exp, Real.tanh⟩ fuel dataset "bogus" =
        some (Outcome.fatal (example_network ℝ))) ∧
    (∀ fuel : Nat,
      (example_network ℝ).train ⟨Real.exp, Real.tanh⟩ (fun _ _ _ _ => []) (fuel + 1)
          (example_point ℝ :: []) "bogus" (1 / 2) "none" false =
        some (Outcome.fatal (example_network ℝ))) :=
  unknown_mode_is_fatal ⟨Real.exp, Real.tanh⟩ (fun _ _ _ _ => []) (example_network ℝ)
    (example_point ℝ) [] "bogus" (1 / 2) "none" false (by simp)
    (by simp [example_network, example_point, NeuralNetwork.layer, Layer.size])

/-- A pass started with the average cost below the threshold, or not a number,
executes no training step. -/
theorem train_pass_stop (step : NeuralNetwork α → Point α → Outcome α (Cost α))
    (ds : List (Point α)) (v : TrainVars α) (net : NeuralNetwork α)
    (h : v.average_cost.ge (1 / 1000) = false) :
    train_pass step ds v net = some (Outcome.returned v net) := by
  cases ds with
  | nil => rfl
  | cons p rest =>
    rw [train_pass, if_neg (by rw [h]; simp)]

/-- A pass writes one line of the cost log for each increment of the counter
and keeps the dataset. -/
theorem train_pass_sync (step : NeuralNetwork α → Point α → Outcome α (Cost α))
    (ds : List (Point α)) :
    ∀ (v : TrainVars α) (net : NeuralNetwork α) (v1 : TrainVars α) (net1 : NeuralNetwork α),
      train_pass step ds v net = some (Outcome.returned v1 net1) →
      v.cost_log.length + 1 = v.i →
      v1.cost_log.length + 1 = v1.i ∧ v.i ≤ v1.i ∧ v1.dataset = v.dataset := by
  induction ds with
  | nil =>
    intro v net v1 net1 h hs
    simp only [train_pass, Option.some.injEq, Outcome.returned.injEq] at h
    obtain ⟨rfl, rfl⟩ := h
    exact ⟨hs, le_rfl, rfl⟩
  | cons p rest ih =>
    intro v net v1 net1 h hs
    rw [train_pass] at h
    by_cases hge : v.average_cost.ge (1 / 1000) = true
    · rw [if_pos hge] at h
      cases hstep : step net p with
      | fatal n => rw [hstep] at h; simp at h
      | aborted n => rw [hstep] at h; simp at h
      | returned cost net2 =>
        rw [hstep] at h
        simp only at h
        by_cases hi : v.i + 1 < 4294967296
        · rw [if_pos hi] at h
          obtain ⟨h1, h2, h3⟩ := ih _ _ _ _ h (by simp [hs])
          exact ⟨h1, by simp at h2; omega, by simpa using h3⟩
        · rw [if_neg hi] at h
          simp at h
    · rw [if_neg hge] at h
      simp only [Option.some.injEq, Outcome.returned.injEq] at h
      obtain ⟨rfl, rfl⟩ := h
      exact ⟨hs, le_rfl, rfl⟩

/-- After a pass that started with a numeric running total, either nothing has
happened or the average cost is a number exactly when the cost of the last
step is. -/
theorem train_pass_cost (step : NeuralNetwork α → Point α → Outcome α (Cost α))
    (ds : List (Point α)) :
    ∀ (v : TrainVars α) (net : NeuralNetwork α) (v1 : TrainVars α) (net1 : NeuralNetwork α),
      train_pass step ds v net = some (Outcome.returned v1 net1) →
      v.total_cost.isSome = true →
      (v1 = v ∧ net1 = net) ∨ v1.average_cost.isSome = v1.cost.isSome := by
  induction ds with
  | nil =>
    intro v net v1 net1 h _
    simp only [train_pass, Option.some.injEq, Outcome.returned.injEq] at h
    exact Or.inl ⟨h.1.symm, h.2.symm⟩
  | cons p rest ih =>
    intro v net v1 net1 h ht
    rw [train_pass] at h
    by_cases hge : v.average_cost.ge (1 / 1000) = true
    · rw [if_pos hge] at h
      cases hstep : step net p with
      | fatal n => rw [hstep] at h; simp at h
      | aborted n => rw [hstep] at h; simp at h
      | returned cost net2 =>
        rw [hstep] at h
        simp only at h
        by_cases hi : v.i + 1 < 4294967296
        · rw [if_pos hi] at h
          obtain ⟨t, htv⟩ := Option.isSome_iff_exists.mp ht
          right
          cases hc : cost with
          | none =>
            rw [hc, htv] at h
            have hstop := train_pass_stop step rest
              { v with
                i := v.i + 1, total_cost := (none : Cost α), cost := none,
                average_cost := none,
                cost_log := v.cost_log ++ [(v.i, none)] } net2 rfl
            simp only [Option.map, bind, Option.bind] at h
            rw [hstop] at h
            simp only [Option.some.injEq, Outcome.returned.injEq] at h
            rw [← h.1]
          | some c =>
            rw [hc, htv] at h
            simp only [bind, Option.bind, pure, Option.map] at h
            rcases ih _ _ _ _ h rfl with ⟨h1, _⟩ | h1
            · rw [h1]; rfl
            · exact h1
        · rw [if_neg hi] at h
          simp at h
    · rw [if_neg hge] at h
      simp only [Option.some.injEq, Outcome.returned.injEq] at h
      exact Or.inl ⟨h.1.symm, h.2.symm⟩

/-- A cost that passes the threshold test is a number. -/
theorem ge_true_not_nan (c : Cost α) (t : α) (h : c.ge t = true) : c.isnan = false := by
  cases c with
  | none => simp [Cost.ge] at h
  | some a => rfl

/-- The outer loop returns as soon as its condition fails. -/
theorem train_loop_exit (step : NeuralNetwork α → Point α → Outcome α (Cost α))
    (gen : Nat → Nat → Nat → String → List (Point α)) (dt : String) (fuel : Nat)
    (v : TrainVars α) (net : NeuralNetwork α) (h : v.average_cost.ge (1 / 1000) = false) :
    train_loop step gen dt (fuel + 1) v net = some (Outcome.returned v net) := by
  rw [train_loop, if_neg (by rw [h]; simp)]

/-- The outer loop after a pass that does not regenerate the dataset, with the
counter below 250000: total and average cost are reset and the loop goes on. -/
theorem train_loop_reset (step : NeuralNetwork α → Point α → Outcome α (Cost α))
    (gen : Nat → Nat → Nat → String → List (Point α)) (dt : String) (fuel : Nat)
    (v : TrainVars α) (net : NeuralNetwork α) (v1 : TrainVars α) (net1 : NeuralNetwork α)
    (hrun : v.average_cost.ge (1 / 1000) = true)
    (hpass : train_pass step v.dataset v net = some (Outcome.returned v1 net1))
    (hno : v1.average_cost.ge (1 / 1000) = false ∨ dt = "none" ∨ dt = "max_index_const")
    (hi : v1.i < 250000) :
    train_loop step gen dt (fuel + 1) v net =
      train_loop step gen dt fuel { v1 with average_cost := some 1, total_cost := some 0 }
        net1 := by
  rw [train_loop, if_pos (by rw [hrun, ge_true_not_nan _ _ hrun]; rfl), hpass]
  simp only
  rw [if_neg, if_pos hi]
  rcases hno with h | h | h
  · rw [h]; simp
  · simp [h]
  · simp [h]

/-- The outer loop after a pass that does not regenerate the dataset, with the
counter at 250000 or more: nothing is reset and the loop goes on with the
variables as they are. -/
theorem train_loop_carry (step : NeuralNetwork α → Point α → Outcome α (Cost α))
    (gen : Nat → Nat → Nat → String → List (Point α)) (dt : String) (fuel : Nat)
    (v : TrainVars α) (net : NeuralNetwork α) (v1 : TrainVars α) (net1 : NeuralNetwork α)
    (hrun : v.average_cost.ge (1 / 1000) = true)
    (hpass : train_pass step v.dataset v net = some (Outcome.returned v1 net1))
    (hno : v1.average_cost.ge (1 / 1000) = false ∨ dt = "none" ∨ dt = "max_index_const")
    (hi : 250000 ≤ v1.i) :
    train_loop step gen dt (fuel + 1) v net = train_loop step gen dt fuel v1 net1 := by
  rw [train_loop, if_pos (by rw [hrun, ge_true_not_nan _ _ hrun]; rfl), hpass]
  simp only
  rw [if_neg, if_neg (by omega)]
  rcases hno with h | h | h
  · rw [h]; simp
  · simp [h]
  · simp [h]

/-- The invariant of the outer loop: at each evaluation of its condition either
the condition holds or the counter has reached 250000; so a loop that returns
has a counter of at least 250000, one more than the lines of its cost log. -/
theorem train_loop_final (step : NeuralNetwork α → Point α → Outcome α (Cost α))
    (gen : Nat → Nat → Nat → String → List (Point α)) (dt : String) (fuel : Nat) :
    ∀ (v : TrainVars α) (net : NeuralNetwork α) (vf : TrainVars α) (netf : NeuralNetwork α),
      v.cost_log.length + 1 = v.i →
      (v.average_cost.ge (1 / 1000) = true ∨ 250000 ≤ v.i) →
      train_loop step gen dt fuel v net = some (Outcome.returned vf netf) →
      250000 ≤ vf.i ∧ vf.cost_log.length + 1 = vf.i := by
  induction fuel with
  | zero => intro v net vf netf _ _ h; simp [train_loop] at h
  | succ fuel ih =>
    intro v net vf netf hs hinv h
    by_cases hrun : v.average_cost.ge (1 / 1000) = true
    · rw [train_loop, if_pos (by rw [hrun, ge_true_not_nan _ _ hrun]; rfl)] at h
      cases hpass : train_pass step v.dataset v net with
      | none => rw [hpass] at h; simp at h
      | some r =>
        cases r with
        | fatal n => rw [hpass] at h; simp at h
        | aborted n => rw [hpass] at h; simp at h
        | returned v1 net1 =>
          rw [hpass] at h
          simp only at h
          obtain ⟨hs1, _, _⟩ := train_pass_sync step v.dataset v net v1 net1 hpass hs
          split at h
          · rename_i hre
            refine ih _ _ _ _ (by exact hs1) (Or.inl ?_) h
            simp only [Bool.and_eq_true] at hre
            exact hre.1.1.2
          · split at h
            · refine ih _ _ _ _ (by exact hs1) (Or.inl ?_) h
              simp only [Cost.ge, decide_eq_true_eq]
              norm_num
            · rename_i hnot
              exact ih _ _ _ _ hs1 (Or.inr (by omega)) h
    · have hfalse : v.average_cost.ge (1 / 1000) = false := by simpa using hrun
      rw [train_loop_exit step gen dt fuel v net hfalse] at h
      simp only [Option.some.injEq, Outcome.returned.injEq] at h
      obtain ⟨rfl, rfl⟩ := h
      rcases hinv with h1 | h1
      · exact absurd h1 hrun
      · exact ⟨h1, hs⟩

/-- C11 (amended): when a pass of the training loop ends with the average cost a
number below 0.001, no further step is executed in that pass; if the counter
has then reached 250000 the loop returns with the variables of that moment and
`train` reports success; if the counter is below 250000 the loop resets total
cost to 0 and average cost to 1 and goes on training. -/
theorem train_converged (step : NeuralNetwork α → Point α → Outcome α (Cost α))
    (gen : Nat → Nat → Nat → String → List (Point α)) (dt : String) (fuel : Nat)
    (v : TrainVars α) (net : NeuralNetwork α) (v1 : TrainVars α) (net1 : NeuralNetwork α)
    (a : α)
    (hrun : v.average_cost.ge (1 / 1000) = true)
    (htot : v.total_cost.isSome = true)
    (hpass : train_pass step v.dataset v net = some (Outcome.returned v1 net1))
    (havg : v1.average_cost = some a) (hlt : a < 1 / 1000) :
    (∀ ds, train_pass step ds v1 net1 = some (Outcome.returned v1 net1)) ∧
    (250000 ≤ v1.i →
      train_loop step gen dt (fuel + 2) v net = some (Outcome.returned v1 net1) ∧
        (!v1.cost.isnan) = true) ∧
    (v1.i < 250000 →
      train_loop step gen dt (fuel + 1) v net =
        train_loop step gen dt fuel { v1 with average_cost := some 1, total_cost := some 0 }
          net1) := by
  have hstop : v1.average_cost.ge (1 / 1000) = false := by
    rw [havg]
    simp only [Cost.ge, decide_eq_false_iff_not, not_le]
    exact hlt
  refine ⟨fun ds => train_pass_stop step ds v1 net1 hstop, ?_, ?_⟩
  · intro hi
    constructor
    · rw [train_loop_carry step gen dt (fuel + 1) v net v1 net1 hrun hpass (Or.inl hstop) hi]
      exact train_loop_exit step gen dt fuel v1 net1 hstop
    · rcases train_pass_cost step v.dataset v net v1 net1 hpass htot with ⟨h1, _⟩ | h1
      · rw [h1, hrun] at hstop
        cases hstop
      · rw [havg] at h1
        cases hc : v1.cost with
        | none => rw [hc] at h1; cases h1
        | some c => rfl
  · intro hi
    exact train_loop_reset step gen dt fuel v net v1 net1 hrun hpass (Or.inl hstop) hi

/-- C13 (amended): when a pass of the training loop ends with the average cost
not a number, no further step is executed in that pass; if the counter has then
reached 250000 the loop returns and `train` reports failure; if the counter is
below 250000 the loop resets total cost to 0 and average cost to 1 and goes on
training. -/
theorem train_diverged (step : NeuralNetwork α → Point α → Outcome α (Cost α))
    (gen : Nat → Nat → Nat → String → List (Point α)) (dt : String) (fuel : Nat)
    (v : TrainVars α) (net : NeuralNetwork α) (v1 : TrainVars α) (net1 : NeuralNetwork α)
    (hrun : v.average_cost.ge (1 / 1000) = true)
    (htot : v.total_cost.isSome = true)
    (hpass : train_pass step v.dataset v net = some (Outcome.returned v1 net1))
    (hnan : v1.average_cost.isnan = true) :
    (∀ ds, train_pass step ds v1 net1 = some (Outcome.returned v1 net1)) ∧
    (250000 ≤ v1.i →
      train_loop step gen dt (fuel + 2) v net = some (Outcome.returned v1 net1) ∧
        (!v1.cost.isnan) = false) ∧
    (v1.i < 250000 →
      train_loop step gen dt (fuel + 1) v net =
        train_loop step gen dt fuel { v1 with average_cost := some 1, total_cost := some 0 }
          net1) := by
  have havg : v1.average_cost = none := by
    cases h : v1.average_cost with
    | none => rfl
    | some a => rw [h] at hnan; cases hnan
  have hstop : v1.average_cost.ge (1 / 1000) = false := by
    rw [havg]; rfl
  refine ⟨fun ds => train_pass_stop step ds v1 net1 hstop, ?_, ?_⟩
  · intro hi
    constructor
    · rw [train_loop_carry step gen dt (fuel + 1) v net v1 net1 hrun hpass (Or.inl hstop) hi]
      exact train_loop_exit step gen dt fuel v1 net1 hstop
    · rcases train_pass_cost step v.dataset v net v1 net1 hpass htot with ⟨h1, _⟩ | h1
      · rw [h1, hrun] at hstop
        cases hstop
      · rw [havg] at h1
        cases hc : v1.cost with
        | none => rfl
        | some c => rw [hc] at h1; cases h1
  · intro hi
    exact train_loop_reset step gen dt fuel v net v1 net1 hrun hpass (Or.inl hstop) hi

/-- A pass keeps the dataset. -/
theorem train_pass_dataset (step : NeuralNetwork α → Point α → Outcome α (Cost α))
    (ds : List (Point α)) :
    ∀ (v : TrainVars α) (net : NeuralNetwork α) (v1 : TrainVars α) (net1 : NeuralNetwork α),
      train_pass step ds v net = some (Outcome.returned v1 net1) → v1.dataset = v.dataset := by
  induction ds with
  | nil =>
    intro v net v1 net1 h
    simp only [train_pass, Option.some.injEq, Outcome.returned.injEq] at h
    rw [← h.1]
  | cons p rest ih =>
    intro v net v1 net1 h
    rw [train_pass] at h
    by_cases hge : v.average_cost.ge (1 / 1000) = true
    · rw [if_pos hge] at h
      cases hstep : step net p with
      | fatal n => rw [hstep] at h; simp at h
      | aborted n => rw [hstep] at h; simp at h
      | returned cost net2 =>
        rw [hstep] at h
        simp only at h
        by_cases hi : v.i + 1 < 4294967296
        · rw [if_pos hi] at h
          have h1 := ih _ _ _ _ h
          exact h1
        · rw [if_neg hi] at h
          simp at h
    · rw [if_neg hge] at h
      simp only [Option.some.injEq, Outcome.returned.injEq] at h
      rw [← h.1]

/-- A pass never lowers the counter, and raises it when it starts on a non-empty
dataset with the average cost at or above the threshold. -/
theorem train_pass_counter (step : NeuralNetwork α → Point α → Outcome α (Cost α))
    (ds : List (Point α)) :
    ∀ (v : TrainVars α) (net : NeuralNetwork α) (v1 : TrainVars α) (net1 : NeuralNetwork α),
      train_pass step ds v net = some (Outcome.returned v1 net1) →
      v.i ≤ v1.i ∧ (ds ≠ [] → v.average_cost.ge (1 / 1000) = true → v.i < v1.i) := by
  induction ds with
  | nil =>
    intro v net v1 net1 h
    simp only [train_pass, Option.some.injEq, Outcome.returned.injEq] at h
    obtain ⟨rfl, rfl⟩ := h
    exact ⟨le_rfl, fun h => absurd rfl h⟩
  | cons p rest ih =>
    intro v net v1 net1 h
    rw [train_pass] at h
    by_cases hge : v.average_cost.ge (1 / 1000) = true
    · rw [if_pos hge] at h
      cases hstep : step net p with
      | fatal n => rw [hstep] at h; simp at h
      | aborted n => rw [hstep] at h; simp at h
      | returned cost net2 =>
        rw [hstep] at h
        simp only at h
        by_cases hi : v.i + 1 < 4294967296
        · rw [if_pos hi] at h
          have h1 := (ih _ _ _ _ h).1
          simp only at h1
          exact ⟨by omega, fun _ _ => by omega⟩
        · rw [if_neg hi] at h
          simp at h
    · rw [if_neg hge] at h
      simp only [Option.some.injEq, Outcome.returned.injEq] at h
      obtain ⟨rfl, rfl⟩ := h
      exact ⟨le_rfl, fun _ h => absurd h hge⟩

/-- The outer loop never lowers the counter, and a loop that returns after
starting on a non-empty dataset with its condition true has raised it. -/
theorem train_loop_counter (step : NeuralNetwork α → Point α → Outcome α (Cost α))
    (gen : Nat → Nat → Nat → String → List (Point α)) (dt : String) (fuel : Nat) :
    ∀ (v : TrainVars α) (net : NeuralNetwork α) (vf : TrainVars α) (netf : NeuralNetwork α),
      train_loop step gen dt fuel v net = some (Outcome.returned vf netf) →
      v.i ≤ vf.i ∧
        (v.dataset ≠ [] → v.average_cost.ge (1 / 1000) = true → v.i < vf.i) := by
  induction fuel with
  | zero => intro v net vf netf h; simp [train_loop] at h
  | succ fuel ih =>
    intro v net vf netf h
    by_cases hrun : v.average_cost.ge (1 / 1000) = true
    · rw [train_loop, if_pos (by rw [hrun, ge_true_not_nan _ _ hrun]; rfl)] at h
      cases hpass : train_pass step v.dataset v net with
      | none => rw [hpass] at h; simp at h
      | some r =>
        cases r with
        | fatal n => rw [hpass] at h; simp at h
        | aborted n => rw [hpass] at h; simp at h
        | returned v1 net1 =>
          rw [hpass] at h
          simp only at h
          obtain ⟨hle, hlt⟩ := train_pass_counter step v.dataset v net v1 net1 hpass
          have key : v1.i ≤ vf.i := by
            split at h
            · exact (ih _ _ _ _ h).1
            · split at h
              · exact (ih _ _ _ _ h).1
              · exact (ih _ _ _ _ h).1
          exact ⟨by omega, fun hne hg => by have := hlt hne hg; omega⟩
    · have hfalse : v.average_cost.ge (1 / 1000) = false := by simpa using hrun
      rw [train_loop_exit step gen dt fuel v net hfalse] at h
      simp only [Option.some.injEq, Outcome.returned.injEq] at h
      obtain ⟨rfl, rfl⟩ := h
      exact ⟨le_rfl, fun _ hg => absurd hg hrun⟩

/-- C12 (amended): with regeneration disabled, when a pass over a non-empty
stream ends with the average cost a number at or above 0.001, the stream is
kept; with the counter below 250000 total cost is reset to 0 and average cost
to 1 and the loop goes on; with the counter at 250000 or more nothing is reset
and the loop goes on all the same: any run that returns has raised the counter
further, that is, has made another pass. -/
theorem train_pass_unconverged (step : NeuralNetwork α → Point α → Outcome α (Cost α))
    (gen : Nat → Nat → Nat → String → List (Point α)) (dt : String) (fuel : Nat)
    (v : TrainVars α) (net : NeuralNetwork α) (v1 : TrainVars α) (net1 : NeuralNetwork α)
    (hdt : dt = "none" ∨ dt = "max_index_const")
    (hne : v.dataset ≠ [])
    (hrun : v.average_cost.ge (1 / 1000) = true)
    (hpass : train_pass step v.dataset v net = some (Outcome.returned v1 net1))
    (hge : v1.average_cost.ge (1 / 1000) = true) :
    v1.dataset = v.dataset ∧
    (v1.i < 250000 →
      train_loop step gen dt (fuel + 1) v net =
        train_loop step gen dt fuel { v1 with average_cost := some 1, total_cost := some 0 }
          net1) ∧
    (250000 ≤ v1.i →
      train_loop step gen dt (fuel + 1) v net = train_loop step gen dt fuel v1 net1 ∧
      ∀ vf netf, train_loop step gen dt (fuel + 1) v net = some (Outcome.returned vf netf) →
        v1.i < vf.i) := by
  have hds := train_pass_dataset step v.dataset v net v1 net1 hpass
  refine ⟨hds, ?_, ?_⟩
  · intro hi
    exact train_loop_reset step gen dt fuel v net v1 net1 hrun hpass (Or.inr hdt) hi
  · intro hi
    have hc := train_loop_carry step gen dt fuel v net v1 net1 hrun hpass (Or.inr hdt) hi
    refine ⟨hc, ?_⟩
    intro vf netf h
    rw [hc] at h
    exact (train_loop_counter step gen dt fuel v1 net1 vf netf h).2 (by rw [hds]; exact hne) hge

/-- C19: a run of `train` that returns has a counter of at least 250000 and has
executed at least 249999 training steps (one line of the cost log each, the
counter being one more than their number); and whenever a pass ends with the
average cost below 0.001 or not a number while the counter is below 250000,
the loop resets total cost to 0 and average cost to 1 and goes on. -/
theorem train_returns_after_250000 (step : NeuralNetwork α → Point α → Outcome α (Cost α))
    (gen : Nat → Nat → Nat → String → List (Point α)) (dt : String) (fuel : Nat)
    (net : NeuralNetwork α) (dataset : List (Point α)) (b : Bool) (net1 : NeuralNetwork α)
    (h : train_with step gen fuel net dataset dt = some (Outcome.returned b net1)) :
    (∃ v, train_loop step gen dt fuel ⟨dataset, 1, some 0, some 0, some 1, []⟩ net =
        some (Outcome.returned v net1) ∧
      b = !v.cost.isnan ∧ 250000 ≤ v.i ∧ v.cost_log.length + 1 = v.i ∧
      249999 ≤ v.cost_log.length) ∧
    (∀ (fuel1 : Nat) (v : TrainVars α) (net2 : NeuralNetwork α) (v1 : TrainVars α)
      (net3 : NeuralNetwork α),
      v.average_cost.ge (1 / 1000) = true →
      train_pass step v.dataset v net2 = some (Outcome.returned v1 net3) →
      v1.average_cost.ge (1 / 1000) = false → v1.i < 250000 →
      train_loop step gen dt (fuel1 + 1) v net2 =
        train_loop step gen dt fuel1 { v1 with average_cost := some 1, total_cost := some 0 }
          net3) := by
  refine ⟨?_, ?_⟩
  · cases dataset with
    | nil => simp [train_with] at h
    | cons p ds =>
      rw [train_with] at h
      split at h
      · rename_i hx
        cases hl : train_loop step gen dt fuel ⟨p :: ds, 1, some 0, some 0, some 1, []⟩ net with
        | none => rw [hl] at h; simp at h
        | some r =>
          cases r with
          | fatal n => rw [hl] at h; simp at h
          | aborted n => rw [hl] at h; simp at h
          | returned v net2 =>
            rw [hl] at h
            simp only [Option.some.injEq, Outcome.returned.injEq] at h
            obtain ⟨hb, hn⟩ := h
            subst hn
            have hfin := train_loop_final step gen dt fuel _ net v net2 (by simp)
              (Or.inl (by simp only [Cost.ge, decide_eq_true_eq]; norm_num)) hl
            exact ⟨v, rfl, hb.symm, hfin.1, hfin.2, by omega⟩
      · simp at h
  · intro fuel1 v net2 v1 net3 hrun hpass hstop hi
    exact train_loop_reset step gen dt fuel1 v net2 v1 net3 hrun hpass (Or.inl hstop) hi

/-- A pass over a stream of one example whose step returns a numeric cost. -/
theorem train_pass_single (step : NeuralNetwork α → Point α → Outcome α (Cost α))
    (p : Point α) (v : TrainVars α) (net net1 : NeuralNetwork α) (t c : α)
    (hstep : step net p = Outcome.returned (some c) net1)
    (hrun : v.average_cost.ge (1 / 1000) = true) (htot : v.total_cost = some t)
    (hi : v.i + 1 < 4294967296) :
    train_pass step [p] v net =
      some (Outcome.returned
        { v with
          i := v.i + 1, total_cost := some (t + |c|), cost := some c,
          average_cost := some ((t + |c|) / (v.i : α)),
          cost_log := v.cost_log ++ [(v.i, some ((t + |c|) / (v.i : α)))] } net1) := by
  rw [train_pass, if_pos hrun, hstep]
  simp only
  rw [if_pos hi, htot]
  rfl

/-- A run on a stream of one example whose step always costs 0, started with
total cost 0 and average cost 1 at a counter below 250000: it returns when
the counter reaches 250000, having logged the average 0 at its first step. -/
theorem zero_cost_run (step : NeuralNetwork α → Point α → Outcome α (Cost α))
    (gen : Nat → Nat → Nat → String → List (Point α)) (dt : String) (p : Point α)
    (P : NeuralNetwork α → Prop)
    (hstep : ∀ net, P net → ∃ net1, step net p = Outcome.returned (some 0) net1 ∧ P net1)
    (m : Nat) :
    ∀ (v : TrainVars α) (net : NeuralNetwork α), P net → v.dataset = [p] →
      v.i + m + 1 = 250000 → 1 ≤ v.i → v.total_cost = some 0 → v.average_cost = some 1 →
      ∃ vf netf, train_loop step gen dt (m + 2) v net = some (Outcome.returned vf netf) ∧
        vf.i = 250000 ∧ vf.cost = some 0 ∧ P netf ∧
        ∃ tail, vf.cost_log = v.cost_log ++ (v.i, some 0) :: tail := by
  induction m with
  | zero =>
    intro v net hP hds hi h1 htot havg
    obtain ⟨net1, hs, hP1⟩ := hstep net hP
    have hrun : v.average_cost.ge (1 / 1000) = true := by
      rw [havg]; simp only [Cost.ge, decide_eq_true_eq]; norm_num
    have hpass := train_pass_single step p v net net1 0 0 hs hrun htot (by omega)
    rw [← hds] at hpass
    simp only [abs_zero, add_zero, zero_div] at hpass
    have hstop : Cost.ge (some (0 : α)) (1 / 1000) = false := by
      simp only [Cost.ge, decide_eq_false_iff_not, not_le]; norm_num
    refine ⟨{ v with
        i := v.i + 1, total_cost := some 0, cost := some 0, average_cost := some 0,
        cost_log := v.cost_log ++ [(v.i, some 0)] }, net1, ?_, ?_, ?_, hP1, ?_⟩
    · rw [train_loop_carry step gen dt 1 v net _ net1 hrun hpass (Or.inl hstop)
        (by simp only; omega)]
      exact train_loop_exit step gen dt 0 _ net1 hstop
    · simp only; omega
    · rfl
    · exact ⟨[], rfl⟩
  | succ m ih =>
    intro v net hP hds hi h1 htot havg
    obtain ⟨net1, hs, hP1⟩ := hstep net hP
    have hrun : v.average_cost.ge (1 / 1000) = true := by
      rw [havg]; simp only [Cost.ge, decide_eq_true_eq]; norm_num
    have hpass := train_pass_single step p v net net1 0 0 hs hrun htot (by omega)
    rw [← hds] at hpass
    simp only [abs_zero, add_zero, zero_div] at hpass
    have hstop : Cost.ge (some (0 : α)) (1 / 1000) = false := by
      simp only [Cost.ge, decide_eq_false_iff_not, not_le]; norm_num
    obtain ⟨vf, netf, hrunf, hif, hcf, hPf, tail, htail⟩ :=
      ih { v with
          i := v.i + 1, total_cost := some 0, cost := some 0,
          average_cost := some 1,
          cost_log := v.cost_log ++ [(v.i, some 0)] } net1 hP1 hds (by simp only; omega)
        (by simp only; omega) rfl rfl
    refine ⟨vf, netf, ?_, hif, hcf, hPf, ?_⟩
    · rw [train_loop_reset step gen dt (m + 2) v net _ net1 hrun hpass (Or.inl hstop)
        (by simp only; omega)]
      exact hrunf
    · refine ⟨(v.i + 1, some 0) :: tail, ?_⟩
      rw [htail]
      simp

/-- A run without regeneration on a stream of one example whose step always
costs at least 2^32 / 1000: the average cost never falls below 0.001 while the
counter is below 2^32, so the model of the loop never returns. -/
theorem big_cost_run (step : NeuralNetwork α → Point α → Outcome α (Cost α))
    (gen : Nat → Nat → Nat → String → List (Point α)) (dt : String)
    (hdt : dt = "none" ∨ dt = "max_index_const") (p : Point α) (c : α)
    (hc : 4294967296 / 1000 ≤ c)
    (P : NeuralNetwork α → Prop)
    (hstep : ∀ net, P net → ∃ net1, step net p = Outcome.returned (some c) net1 ∧ P net1)
    (fuel : Nat) :
    ∀ (v : TrainVars α) (net : NeuralNetwork α), P net → v.dataset = [p] → 1 ≤ v.i →
      (∃ a, v.average_cost = some a ∧ 1 / 1000 ≤ a) → (∃ t, v.total_cost = some t ∧ 0 ≤ t) →
      train_loop step gen dt fuel v net = none := by
  induction fuel with
  | zero => intro v net _ _ _ _ _; rfl
  | succ fuel ih =>
    intro v net hP hds h1 havg htot
    obtain ⟨a, ha, hage⟩ := havg
    obtain ⟨t, ht, htge⟩ := htot
    obtain ⟨net1, hs, hP1⟩ := hstep net hP
    have hrun : v.average_cost.ge (1 / 1000) = true := by
      rw [ha]; simp only [Cost.ge, decide_eq_true_eq]; exact hage
    by_cases hi : v.i + 1 < 4294967296
    · have hpass := train_pass_single step p v net net1 t c hs hrun ht hi
      rw [← hds] at hpass
      have hcpos : 0 ≤ c := le_trans (by norm_num) hc
      have hipos : (0 : α) < (v.i : α) := by exact_mod_cast h1
      have hile : (v.i : α) ≤ 4294967296 := by
        have : v.i ≤ 4294967296 := by omega
        exact_mod_cast this
      have havg1 : 1 / 1000 ≤ (t + |c|) / (v.i : α) := by
        rw [abs_of_nonneg hcpos, le_div_iff₀ hipos]
        have h2 : 1 / 1000 * (v.i : α) ≤ 1 / 1000 * 4294967296 :=
          mul_le_mul_of_nonneg_left hile (by norm_num)
        have h3 : (1 : α) / 1000 * 4294967296 = 4294967296 / 1000 := by ring
        linarith
      by_cases hcap : v.i + 1 < 250000
      · rw [train_loop_reset step gen dt fuel v net _ net1 hrun hpass (Or.inr hdt)
          (by simp only; omega)]
        exact ih _ net1 hP1 hds (by simp only; omega) ⟨1, rfl, by norm_num⟩ ⟨0, rfl, le_rfl⟩
      · rw [train_loop_carry step gen dt fuel v net _ net1 hrun hpass (Or.inr hdt)
          (by simp only; omega)]
        exact ih _ net1 hP1 hds (by simp only; omega) ⟨_, rfl, havg1⟩
          ⟨_, rfl, add_nonneg htge (abs_nonneg c)⟩
    · have hpass : train_pass step v.dataset v net = none := by
        rw [hds, train_pass, if_pos hrun, hs]
        simp only
        rw [if_neg hi]
      rw [train_loop, if_pos (by rw [hrun, ge_true_not_nan _ _ hrun]; rfl), hpass]

/-- On `small_network` the example with input 0 and target 0 costs 0 in mode
`none` and leaves the network as it is. -/
theorem zero_step_fixed (lr : ℝ) (nl : Bool) :
    train_step ⟨Real.exp, Real.tanh⟩ "none" lr nl (small_network ℝ) ⟨[0], [0]⟩ =
      Outcome.returned (some 0) (small_network ℝ) := by
  simp [train_step, small_network, NeuralNetwork.forward_propagate, get_transfer_methods,
    forward_layers, forward_layer, activate_neuron, set_inputs, inner_product, weight_column,
    is_classification, none_function, none_derivative, NeuralNetwork.backpropagate,
    output_error, backward_pass, backward_layer, accumulate, NeuralNetwork.update_weights,
    update_layers, update_layer, update_neuron]

/-- On `small_network` the example with input 0 and target 10000 costs 10^8 in
mode `none` and only stores that error. -/
theorem big_step_fixed (lr : ℝ) (nl : Bool) (net : NeuralNetwork ℝ)
    (h : net = small_network ℝ ∨
      net = ⟨[⟨[⟨0, 0, 0, [-1]⟩], 5⟩, ⟨[⟨0, 0, 100000000, []⟩], 0⟩]⟩) :
    train_step ⟨Real.exp, Real.tanh⟩ "none" lr nl net ⟨[0], [10000]⟩ =
      Outcome.returned (some 100000000)
        ⟨[⟨[⟨0, 0, 0, [-1]⟩], 5⟩, ⟨[⟨0, 0, 100000000, []⟩], 0⟩]⟩ := by
  rcases h with h | h <;> subst h <;>
  simp [train_step, small_network, NeuralNetwork.forward_propagate, get_transfer_methods,
    forward_layers, forward_layer, activate_neuron, set_inputs, inner_product, weight_column,
    is_classification, none_function, none_derivative, NeuralNetwork.backpropagate,
    output_error, backward_pass, backward_layer, accumulate, NeuralNetwork.update_weights,
    update_layers, update_layer, update_neuron] <;> norm_num


/-- The run of `train` on `small_network` with the example of cost 0. -/
theorem zero_run_small (lr : ℝ) (nl : Bool)
    (gen : Nat → Nat → Nat → String → List (Point ℝ)) (dt : String) :
    ∃ vf, train_loop (train_step ⟨Real.exp, Real.tanh⟩ "none" lr nl) gen dt 250000
        ⟨[⟨[0], [0]⟩], 1, some 0, some 0, some 1, []⟩ (small_network ℝ) =
          some (Outcome.returned vf (small_network ℝ)) ∧
      vf.i = 250000 ∧ vf.cost = some 0 ∧ ∃ tail, vf.cost_log = (1, some 0) :: tail := by
  obtain ⟨vf, netf, h1, h2, h3, h4, tail, h5⟩ :=
    zero_cost_run (train_step ⟨Real.exp, Real.tanh⟩ "none" lr nl) gen dt ⟨[0], [0]⟩
      (fun net => net = small_network ℝ)
      (fun net h => ⟨small_network ℝ, by rw [h]; exact zero_step_fixed lr nl, rfl⟩)
      249998 ⟨[⟨[0], [0]⟩], 1, some 0, some 0, some 1, []⟩ (small_network ℝ) rfl rfl rfl
      le_rfl rfl rfl
  subst h4
  exact ⟨vf, h1, h2, h3, tail, by simpa using h5⟩

/-- C11, counterexample: `train` on `small_network` in mode `none` with the single
example (input 0, target 0). The first step leaves the average cost at 0,
below 0.001 (first line of the cost log), and the loop then executes 249998
further steps before it returns: the cost log has 249999 lines. -/
theorem training_goes_on_after_convergence :
    ∃ vf, train_loop (train_step ⟨Real.exp, Real.tanh⟩ "none" (1 / 2) false)
        (fun _ _ _ _ => []) "none" 250000
        ⟨[⟨[0], [0]⟩], 1, some 0, some 0, some 1, []⟩ (small_network ℝ) =
          some (Outcome.returned vf (small_network ℝ)) ∧
      vf.cost_log.head? = some (1, some 0) ∧ vf.cost_log.length = 249999 := by
  obtain ⟨vf, h1, h2, _, tail, h5⟩ := zero_run_small (1 / 2) false (fun _ _ _ _ => []) "none"
  have hfin := train_loop_final _ _ _ _ _ _ _ _ (by simp)
    (Or.inl (by simp only [Cost.ge, decide_eq_true_eq]; norm_num)) h1
  exact ⟨vf, h1, by rw [h5]; rfl, by omega⟩

/-- C19, witness: the run of `train` on `small_network` with the single example
(input 0, target 0) returns success with 250000 units of fuel. -/
theorem train_returns_after_250000_witness :
    (∃ v, train_loop (train_step ⟨Real.exp, Real.tanh⟩ "none" (1 / 2) false)
        (fun _ _ _ _ => []) "none" 250000
        ⟨[⟨[0], [0]⟩], 1, some 0, some 0, some 1, []⟩ (small_network ℝ) =
          some (Outcome.returned v (small_network ℝ)) ∧
      true = !v.cost.isnan ∧ 250000 ≤ v.i ∧ v.cost_log.length + 1 = v.i ∧
      249999 ≤ v.cost_log.length) ∧
    train_with (train_step ⟨Real.exp, Real.tanh⟩ "none" (1 / 2) false) (fun _ _ _ _ => [])
      250000 (small_network ℝ) [⟨[0], [0]⟩] "none" =
        some (Outcome.returned true (small_network ℝ)) := by
  have hrun : train_with (train_step ⟨Real.exp, Real.tanh⟩ "none" (1 / 2) false)
      (fun _ _ _ _ => []) 250000 (small_network ℝ) [⟨[0], [0]⟩] "none" =
        some (Outcome.returned true (small_network ℝ)) := by
    obtain ⟨vf, h1, _, h3, _⟩ := zero_run_small (1 / 2) false (fun _ _ _ _ => []) "none"
    rw [train_with, if_pos (by simp [small_network, NeuralNetwork.layer, Layer.size]), h1]
    simp [h3, Cost.isnan]
  exact ⟨(train_returns_after_250000 _ _ _ _ _ _ _ _ hrun).1, hrun⟩


/-- A script of at most one cost is over after the first step. -/
theorem scripted_after_first (costs : List (Cost ℝ)) (hc : costs.length ≤ 1)
    (net : NeuralNetwork ℝ) (p : Point ℝ) (h : 1 ≤ net.layers.length) :
    ∃ net1, scripted_step costs net p = Outcome.returned (some 0) net1 ∧
      1 ≤ net1.layers.length := by
  refine ⟨⟨⟨[], 0⟩ :: net.layers⟩, ?_, by simp⟩
  rw [scripted_step, List.getD_eq_default _ _ (by omega)]

/-- C13, counterexample: with the per-step costs NaN, 0, 0, ... the average cost
is not a number after the first step (first line of the cost log), the loop
resets and goes on for 249998 further steps, and `train` returns success. -/
theorem training_goes_on_after_nan :
    ∃ vf netf, train_loop (scripted_step [none]) (fun _ _ _ _ => []) "none" 250000
        ⟨[⟨[], []⟩], 1, some 0, some 0, some 1, []⟩ (⟨[]⟩ : NeuralNetwork ℝ) =
          some (Outcome.returned vf netf) ∧
      vf.cost_log.head? = some (1, none) ∧ vf.cost_log.length = 249999 ∧
      train_with (scripted_step [none]) (fun _ _ _ _ => []) 250000 (⟨[]⟩ : NeuralNetwork ℝ)
        [⟨[], []⟩] "none" = some (Outcome.returned true netf) := by
  have hpass : train_pass (scripted_step [none])
      (⟨[⟨[], []⟩], 1, some 0, some 0, some 1, []⟩ : TrainVars ℝ).dataset
      ⟨[⟨[], []⟩], 1, some 0, some 0, some 1, []⟩ (⟨[]⟩ : NeuralNetwork ℝ) =
      some (Outcome.returned ⟨[⟨[], []⟩], 2, none, none, none, [(1, none)]⟩
        ⟨[⟨[], 0⟩]⟩) := by
    simp [train_pass, scripted_step, Cost.ge]
    norm_num
  have hfirst := train_loop_reset (scripted_step [none]) (fun _ _ _ _ => []) "none" 249999
    ⟨[⟨[], []⟩], 1, some 0, some 0, some 1, []⟩ (⟨[]⟩ : NeuralNetwork ℝ) _ _
    (by simp only [Cost.ge, decide_eq_true_eq]; norm_num) hpass (Or.inl rfl) (by norm_num)
  obtain ⟨vf, netf, h1, h2, h3, _, tail, h5⟩ :=
    zero_cost_run (scripted_step [none]) (fun _ _ _ _ => []) "none" (⟨[], []⟩ : Point ℝ)
      (fun net => 1 ≤ net.layers.length)
      (fun net h => scripted_after_first [none] (by simp) net _ h)
      249997 ⟨[⟨[], []⟩], 2, some 0, none, some 1, [(1, none)]⟩ ⟨[⟨[], 0⟩]⟩ (by simp) rfl rfl
      (by norm_num) rfl rfl
  have hall : train_loop (scripted_step [none]) (fun _ _ _ _ => []) "none" 250000
      ⟨[⟨[], []⟩], 1, some 0, some 0, some 1, []⟩ (⟨[]⟩ : NeuralNetwork ℝ) =
        some (Outcome.returned vf netf) := by
    rw [← h1]
    exact hfirst
  have hfin := train_loop_final _ _ _ _ _ _ _ _ (by simp)
    (Or.inl (by simp only [Cost.ge, decide_eq_true_eq]; norm_num)) hall
  refine ⟨vf, netf, hall, by rw [h5]; rfl, by omega, ?_⟩
  rw [train_with, if_pos (by simp [NeuralNetwork.layer, Layer.size]), hall]
  simp [h3, Cost.isnan]

/-- C12, counterexample: `train` on `small_network` in mode `none`, regeneration
disabled, with the single example (input 0, target 10000). Every step costs
10^8, every pass ends without convergence, and the run does not return,
whatever the fuel: the loop does not terminate when the counter reaches
250000. -/
theorem training_does_not_stop_at_the_cap :
    ¬ ∃ fuel r, (small_network ℝ).train ⟨Real.exp, Real.tanh⟩ (fun _ _ _ _ => []) fuel
      [⟨[0], [10000]⟩] "none" (1 / 2) "none" false = some r := by
  rintro ⟨fuel, r, h⟩
  have hnone := big_cost_run (train_step ⟨Real.exp, Real.tanh⟩ "none" (1 / 2) false)
    (fun _ _ _ _ => []) "none" (Or.inl rfl) ⟨[0], [10000]⟩ 100000000 (by norm_num)
    (fun net => net = small_network ℝ ∨
      net = ⟨[⟨[⟨0, 0, 0, [-1]⟩], 5⟩, ⟨[⟨0, 0, 100000000, []⟩], 0⟩]⟩)
    (fun net hn => ⟨_, big_step_fixed (1 / 2) false net hn, Or.inr rfl⟩)
    fuel ⟨[⟨[0], [10000]⟩], 1, some 0, some 0, some 1, []⟩ (small_network ℝ) (Or.inl rfl) rfl
    le_rfl ⟨1, rfl, by norm_num⟩ ⟨0, rfl, le_rfl⟩
  rw [NeuralNetwork.train, train_with,
    if_pos (by simp [small_network, NeuralNetwork.layer, Layer.size]), hnone] at h
  cases h


/-- C11, witness: the first pass of `train` on `small_network` with the example
(input 0, target 0). -/
theorem train_converged_witness :
    (∀ ds, train_pass (train_step ⟨Real.exp, Real.tanh⟩ "none" (1 / 2) false) ds
        ⟨[⟨[0], [0]⟩], 2, some 0, some 0, some 0, [(1, some 0)]⟩ (small_network ℝ) =
      some (Outcome.returned ⟨[⟨[0], [0]⟩], 2, some 0, some 0, some 0, [(1, some 0)]⟩
        (small_network ℝ))) ∧
    (250000 ≤ 2 →
      train_loop (train_step ⟨Real.exp, Real.tanh⟩ "none" (1 / 2) false) (fun _ _ _ _ => [])
          "none" (0 + 2) ⟨[⟨[0], [0]⟩], 1, some 0, some 0, some 1, []⟩ (small_network ℝ) =
        some (Outcome.returned ⟨[⟨[0], [0]⟩], 2, some 0, some 0, some 0, [(1, some 0)]⟩
          (small_network ℝ)) ∧
        (!Cost.isnan (some (0 : ℝ))) = true) ∧
    (2 < 250000 →
      train_loop (train_step ⟨Real.exp, Real.tanh⟩ "none" (1 / 2) false) (fun _ _ _ _ => [])
          "none" (0 + 1) ⟨[⟨[0], [0]⟩], 1, some 0, some 0, some 1, []⟩ (small_network ℝ) =
        train_loop (train_step ⟨Real.exp, Real.tanh⟩ "none" (1 / 2) false)
          (fun _ _ _ _ => []) "none" 0
          ⟨[⟨[0], [0]⟩], 2, some 0, some 0, some 1, [(1, some 0)]⟩ (small_network ℝ)) :=
  train_converged (train_step ⟨Real.exp, Real.tanh⟩ "none" (1 / 2) false) (fun _ _ _ _ => [])
    "none" 0 ⟨[⟨[0], [0]⟩], 1, some 0, some 0, some 1, []⟩ (small_network ℝ)
    ⟨[⟨[0], [0]⟩], 2, some 0, some 0, some 0, [(1, some 0)]⟩ (small_network ℝ) 0
    (by simp only [Cost.ge, decide_eq_true_eq]; norm_num) rfl
    (by
      have h := train_pass_single (train_step ⟨Real.exp, Real.tanh⟩ "none" (1 / 2) false)
        ⟨[0], [0]⟩ ⟨[⟨[0], [0]⟩], 1, some 0, some 0, some 1, []⟩ (small_network ℝ)
        (small_network ℝ) 0 0 (zero_step_fixed (1 / 2) false)
        (by simp only [Cost.ge, decide_eq_true_eq]; norm_num) rfl (by norm_num)
      simpa using h)
    rfl (by norm_num)

/-- On `small_network` the example with input 0 and target 1 costs 1 in mode
`none`. -/
theorem one_step_fixed :
    train_step ⟨Real.exp, Real.tanh⟩ "none" (1 / 2) false (small_network ℝ) ⟨[0], [1]⟩ =
      Outcome.returned (some 1) ⟨[⟨[⟨0, 0, 0, [-1]⟩], 5⟩, ⟨[⟨0, 0, 1, []⟩], 0⟩]⟩ := by
  simp [train_step, small_network, NeuralNetwork.forward_propagate, get_transfer_methods,
    forward_layers, forward_layer, activate_neuron, set_inputs, inner_product, weight_column,
    is_classification, none_function, none_derivative, NeuralNetwork.backpropagate,
    output_error, backward_pass, backward_layer, accumulate, NeuralNetwork.update_weights,
    update_layers, update_layer, update_neuron]

/-- C12, witness: the first pass of `train` on `small_network` with the example
(input 0, target 1). -/
theorem train_pass_unconverged_witness :
    (⟨[⟨[0], [1]⟩], 2, some 1, some 1, some 1, [(1, some 1)]⟩ : TrainVars ℝ).dataset =
      (⟨[⟨[0], [1]⟩], 1, some 0, some 0, some 1, []⟩ : TrainVars ℝ).dataset ∧
    (2 < 250000 →
      train_loop (train_step ⟨Real.exp, Real.tanh⟩ "none" (1 / 2) false) (fun _ _ _ _ => [])
          "none" (0 + 1) ⟨[⟨[0], [1]⟩], 1, some 0, some 0, some 1, []⟩ (small_network ℝ) =
        train_loop (train_step ⟨Real.exp, Real.tanh⟩ "none" (1 / 2) false)
          (fun _ _ _ _ => []) "none" 0
          ⟨[⟨[0], [1]⟩], 2, some 0, some 1, some 1, [(1, some 1)]⟩
          ⟨[⟨[⟨0, 0, 0, [-1]⟩], 5⟩, ⟨[⟨0, 0, 1, []⟩], 0⟩]⟩) ∧
    (250000 ≤ 2 →
      train_loop (train_step ⟨Real.exp, Real.tanh⟩ "none" (1 / 2) false) (fun _ _ _ _ => [])
          "none" (0 + 1) ⟨[⟨[0], [1]⟩], 1, some 0, some 0, some 1, []⟩ (small_network ℝ) =
        train_loop (train_step ⟨Real.exp, Real.tanh⟩ "none" (1 / 2) false)
          (fun _ _ _ _ => []) "none" 0
          ⟨[⟨[0], [1]⟩], 2, some 1, some 1, some 1, [(1, some 1)]⟩
          ⟨[⟨[⟨0, 0, 0, [-1]⟩], 5⟩, ⟨[⟨0, 0, 1, []⟩], 0⟩]⟩ ∧
      ∀ vf netf,
        train_loop (train_step ⟨Real.exp, Real.tanh⟩ "none" (1 / 2) false)
          (fun _ _ _ _ => []) "none" (0 + 1)
          ⟨[⟨[0], [1]⟩], 1, some 0, some 0, some 1, []⟩ (small_network ℝ) =
            some (Outcome.returned vf netf) → 2 < vf.i) :=
  train_pass_unconverged (train_step ⟨Real.exp, Real.tanh⟩ "none" (1 / 2) false)
    (fun _ _ _ _ => []) "none" 0 ⟨[⟨[0], [1]⟩], 1, some 0, some 0, some 1, []⟩
    (small_network ℝ) ⟨[⟨[0], [1]⟩], 2, some 1, some 1, some 1, [(1, some 1)]⟩
    ⟨[⟨[⟨0, 0, 0, [-1]⟩], 5⟩, ⟨[⟨0, 0, 1, []⟩], 0⟩]⟩ (Or.inl rfl) (by simp)
    (by simp only [Cost.ge, decide_eq_true_eq]; norm_num)
    (by
      have h := train_pass_single (train_step ⟨Real.exp, Real.tanh⟩ "none" (1 / 2) false)
        ⟨[0], [1]⟩ ⟨[⟨[0], [1]⟩], 1, some 0, some 0, some 1, []⟩ (small_network ℝ)
        _ 0 1 one_step_fixed
        (by simp only [Cost.ge, decide_eq_true_eq]; norm_num) rfl (by norm_num)
      simpa using h)
    (by simp only [Cost.ge, decide_eq_true_eq]; norm_num)

/-- C13, witness: the first pass of the run with per-step costs NaN, 0, 0, ... -/
theorem train_diverged_witness :
    (∀ ds, train_pass (scripted_step [none]) ds
        ⟨[⟨[], []⟩], 2, none, none, none, [(1, none)]⟩ (⟨[⟨[], 0⟩]⟩ : NeuralNetwork ℝ) =
      some (Outcome.returned ⟨[⟨[], []⟩], 2, none, none, none, [(1, none)]⟩ ⟨[⟨[], 0⟩]⟩)) ∧
    (250000 ≤ 2 →
      train_loop (scripted_step [none]) (fun _ _ _ _ => []) "none" (0 + 2)
          ⟨[⟨[], []⟩], 1, some 0, some 0, some 1, []⟩ (⟨[]⟩ : NeuralNetwork ℝ) =
        some (Outcome.returned ⟨[⟨[], []⟩], 2, none, none, none, [(1, none)]⟩ ⟨[⟨[], 0⟩]⟩) ∧
        (!Cost.isnan (none : Cost ℝ)) = false) ∧
    (2 < 250000 →
      train_loop (scripted_step [none]) (fun _ _ _ _ => []) "none" (0 + 1)
          ⟨[⟨[], []⟩], 1, some 0, some 0, some 1, []⟩ (⟨[]⟩ : NeuralNetwork ℝ) =
        train_loop (scripted_step [none]) (fun _ _ _ _ => []) "none" 0
          ⟨[⟨[], []⟩], 2, some 0, none, some 1, [(1, none)]⟩ ⟨[⟨[], 0⟩]⟩) :=
  train_diverged (scripted_step [none]) (fun _ _ _ _ => []) "none" 0
    ⟨[⟨[], []⟩], 1, some 0, some 0, some 1, []⟩ (⟨[]⟩ : NeuralNetwork ℝ)
    ⟨[⟨[], []⟩], 2, none, none, none, [(1, none)]⟩ ⟨[⟨[], 0⟩]⟩
    (by simp only [Cost.ge, decide_eq_true_eq]; norm_num) rfl
    (by simp [train_pass, scripted_step, Cost.ge]; norm_num) rfl

/-- The constructor accepts a non-empty list of positive sizes with one bias
less, and builds layer `k` from `s[k]`, `b[k]` and `s[k+1]` for every layer
but the last, and the last layer from `s.back()` with bias 0 and next size 0. -/
theorem construct_layers (make_layer : Nat → Bool → α → Nat → α → α → Layer α)
    (s : List Nat) (random : Bool) (b : List α) (mean std : α)
    (hpos : ∀ x ∈ s, 0 < x) (hlen : b.length + 1 = s.length) :
    ∃ net, NeuralNetwork.construct make_layer s random b mean std = some net ∧
      net.layers.length = s.length ∧
      (∀ k, k + 1 < s.length →
        net.layer k =
          make_layer (s.getD k 0) random (b.getD k 0) (s.getD (k + 1) 0) mean std) ∧
      net.layer (s.length - 1) = make_layer (s.getD (s.length - 1) 0) random 0 0 0 0 ∧
      net.back = make_layer (s.getD (s.length - 1) 0) random 0 0 0 0 := by
  have hne : s ≠ [] := by
    intro h
    rw [h] at hlen
    simp at hlen
  have hlast : s.getLastD 0 = s.getD (s.length - 1) 0 := by
    rw [List.getLastD_eq_getLast?, List.getLast?_eq_getElem?, List.getD_eq_getElem?_getD]
  refine ⟨⟨(List.range (s.length - 1)).map (fun layer =>
      make_layer (s.getD layer 0) random (b.getD layer 0) (s.getD (layer + 1) 0) mean std)
    ++ [make_layer (s.getLastD 0) random 0 0 0 0]⟩, ?_, ?_, ?_, ?_, ?_⟩
  · rw [NeuralNetwork.construct, if_pos]
    refine ⟨hne, by omega, ?_⟩
    rw [List.all_eq_true]
    intro x hx
    exact decide_eq_true (hpos x hx)
  · have : 0 < s.length := List.length_pos.mpr hne
    simp only [List.length_append, List.length_map, List.length_range, List.length_singleton]
    omega
  · intro k hk
    simp only [NeuralNetwork.layer, List.getD_eq_getElem?_getD]
    rw [List.getElem?_append_left (by simp; omega)]
    simp [List.getElem?_range (by omega : k < s.length - 1)]
  · simp only [NeuralNetwork.layer, List.getD_eq_getElem?_getD]
    rw [List.getElem?_append_right (by simp)]
    simp [List.getLast?_eq_getElem?]
  · simp [NeuralNetwork.back, List.getLast?_eq_getElem?]

/-- C14: for every list `s` of positive layer sizes and every bias list `b` with
`len b = len s - 1`, taking `Layer(size, random, bias, next_size, mean, std)`
to build `size` neurons with `next_size` weights each, the constructor returns
a network of `len s` layers in which layer `k` has `s[k]` neurons, every
neuron of a layer `k` before the last has `s[k+1]` weights and every neuron
of the output layer has none. -/
theorem construct_shape (make_layer : Nat → Bool → α → Nat → α → α → Layer α)
    (hshape : ∀ size random bias next mean std,
      (make_layer size random bias next mean std).neurons.length = size ∧
      ∀ n ∈ (make_layer size random bias next mean std).neurons,
        n.weights_to_next_layer.length = next)
    (s : List Nat) (random : Bool) (b : List α) (mean std : α)
    (hpos : ∀ x ∈ s, 0 < x) (hlen : b.length + 1 = s.length) :
    ∃ net, NeuralNetwork.construct make_layer s random b mean std = some net ∧
      net.layers.length = s.length ∧
      (∀ k, k < s.length → (net.layer k).size = s.getD k 0) ∧
      (∀ k i, k + 1 < s.length → i < (net.layer k).size →
        (net.neuron k i).weights_to_next_layer.length = s.getD (k + 1) 0) ∧
      (∀ i, i < net.back.size → (net.back.neuron i).weights_to_next_layer.length = 0) := by
  obtain ⟨net, h0, h1, h2, h3, h4⟩ := construct_layers make_layer s random b mean std hpos hlen
  refine ⟨net, h0, h1, ?_, ?_, ?_⟩
  · intro k hk
    by_cases hk1 : k + 1 < s.length
    · rw [h2 k hk1]
      exact (hshape _ _ _ _ _ _).1
    · have : k = s.length - 1 := by omega
      rw [this, h3]
      exact (hshape _ _ _ _ _ _).1
  · intro k i hk hi
    simp only [NeuralNetwork.neuron, Layer.neuron, Layer.size] at hi ⊢
    rw [h2 k hk] at hi ⊢
    rw [List.getD_eq_getElem _ _ hi]
    exact (hshape _ _ _ _ _ _).2 _ (List.getElem_mem hi)
  · intro i hi
    simp only [Layer.neuron, Layer.size] at hi ⊢
    rw [h4] at hi ⊢
    rw [List.getD_eq_getElem _ _ hi]
    exact (hshape _ _ _ _ _ _).2 _ (List.getElem_mem hi)

/-- The modelled `Layer` constructor builds `size` neurons of `next` weights. -/
theorem layer_make_shape (size : Nat) (random : Bool) (bias : α) (next : Nat) (mean std : α) :
    (Layer.make size random bias next mean std).neurons.length = size ∧
    ∀ n ∈ (Layer.make size random bias next mean std).neurons,
      n.weights_to_next_layer.length = next := by
  constructor
  · simp [Layer.make]
  · intro n hn
    simp only [Layer.make] at hn
    rw [List.eq_of_mem_replicate hn]
    simp

/-- C14, witness: sizes `[2, 2, 1]` and biases `[5, 1]`. -/
theorem construct_shape_witness :
    ∃ net, NeuralNetwork.construct Layer.make [2, 2, 1] false [(5 : ℝ), 1] 1 0 = some net ∧
      net.layers.length = [2, 2, 1].length ∧
      (∀ k, k < [2, 2, 1].length → (net.layer k).size = [2, 2, 1].getD k 0) ∧
      (∀ k i, k + 1 < [2, 2, 1].length → i < (net.layer k).size →
        (net.neuron k i).weights_to_next_layer.length = [2, 2, 1].getD (k + 1) 0) ∧
      (∀ i, i < net.back.size → (net.back.neuron i).weights_to_next_layer.length = 0) :=
  construct_shape Layer.make layer_make_shape [2, 2, 1] false [(5 : ℝ), 1] 1 0
    (by simp) (by simp)

/-- C16, the code at the failing input: `small_network`, mode `relu`, the two
examples `x = [1]` and `x = [2]` with target `[0]`. Both forward outputs are 0
and both are classified `[0]` (the report counts 2 correct out of 2), yet the
prediction counts hold 1 for label 0: the first example stores 1 and the
second adds the stored prediction, 0, to it. -/
theorem predict_counts_label_zero_once :
    (small_network ℝ).predict ⟨Real.exp, Real.tanh⟩ 1 [⟨[1], [0]⟩, ⟨[2], [0]⟩] "relu" =
      some (Outcome.returned ⟨2, 100, some [(0, 1)], 0⟩
        ⟨[⟨[⟨2, 2, 0, [-1]⟩], 5⟩, ⟨[⟨-2, 0, 0, []⟩], 0⟩]⟩) := by
  simp [NeuralNetwork.predict, predict_loop, small_network, NeuralNetwork.forward_propagate,
    get_transfer_methods, forward_layers, forward_layer, activate_neuron, set_inputs,
    inner_product, weight_column, relu, is_classification, classify, NeuralNetwork.back,
    Layer.size, count_class, to_int, map_put, List.range_succ]
  norm_num

/-- The output layer is the layer of the last index. -/
theorem back_eq_last_layer (net : NeuralNetwork α) :
    net.back = net.layer (net.layers.length - 1) := by
  simp [NeuralNetwork.back, NeuralNetwork.layer, List.getLast?_eq_getElem?]

/-- Backpropagation in a supported mode returns; the output layer it leaves is
the old one with the error of lines 176-179 stored in each neuron, and the
returned cost is the accumulated sum of these errors. -/
theorem backpropagate_back (m : CMath α) (net : NeuralNetwork α) (p : Point α)
    (tf : String) (f d : α → α) (hmode : get_transfer_methods m tf = some (f, d)) :
    ∃ cost net1, net.backpropagate m p tf = Outcome.returned cost net1 ∧
      net1.back.neurons = net.back.neurons.mapIdx (output_error d p.y) ∧
      cost = accumulate (net1.back.neurons.map (fun n => n.error)) 0 := by
  cases hl : net.layers.reverse with
  | nil =>
    have hnil : net.layers = [] := by simpa using hl
    refine ⟨0, net, backpropagate_nil m net p tf f d hmode hnil, ?_, ?_⟩
    · simp [NeuralNetwork.back, hnil]
    · simp [NeuralNetwork.back, hnil, accumulate]
  | cons back before =>
    refine ⟨_, _, backpropagate_rev m net p tf f d back before hmode hl, ?_, ?_⟩
    · rw [back_mk_reverse, back_of_reverse net back before hl]
    · rw [back_mk_reverse]

/-- After forward propagation on an example of matching arity, the transfer
value of every output neuron is a value of the transfer function. -/
theorem forward_output_in_range (m : CMath α) (net : NeuralNetwork α) (p : Point α)
    (tf : String) (f d : α → α) (hmode : get_transfer_methods m tf = some (f, d))
    (hx : p.x.length = (net.layer 0).size) :
    ∃ out net1, net.forward_propagate m p tf = Outcome.returned out net1 ∧
      ∀ k, k < net1.back.size → ∃ z, (net1.back.neuron k).transfer_value = f z := by
  cases hl : net.layers with
  | nil =>
    refine ⟨p.x, net, by simp [NeuralNetwork.forward_propagate, hmode, hl], ?_⟩
    intro k hk
    simp [NeuralNetwork.back, hl, Layer.size] at hk
  | cons first rest =>
    obtain ⟨h1, h2, h3⟩ := forward_layers_spec f tf rest
      { first with neurons := set_inputs f first.neurons p.x } p.x
    refine ⟨_, _, forward_propagate_cons m net p tf f d first rest hmode hl, ?_⟩
    intro k hk
    rw [back_eq_last_layer] at hk ⊢
    simp only [h1, Nat.add_sub_cancel, NeuralNetwork.layer] at hk ⊢
    cases hr : rest.length with
    | zero =>
      rw [hr] at hk
      rw [h2] at hk ⊢
      simp only [Layer.size, Layer.neuron, set_inputs_length] at hk ⊢
      have hx1 : p.x.length = first.neurons.length := by
        simpa [NeuralNetwork.layer, hl, Layer.size] using hx
      exact ⟨_, set_inputs_transfer f first.neurons p.x k hk (by omega)⟩
    | succ n =>
      rw [hr] at hk
      have h := h3 n (by omega)
      rw [h] at hk ⊢
      rw [forward_layer_size] at hk
      exact ⟨_, forward_layer_transfer f tf _ _ _ k hk⟩

/-- Over the reals the sigmoid lies strictly between 0 and 1. -/
theorem sigmoid_range (z : ℝ) :
    0 < sigmoid ⟨Real.exp, Real.tanh⟩ z ∧ sigmoid ⟨Real.exp, Real.tanh⟩ z < 1 := by
  have he : 0 < Real.exp (-1 * z) := Real.exp_pos _
  simp only [sigmoid]
  constructor
  · positivity
  · rw [div_lt_one (by linarith)]
    linarith

/-- Over the reals `1 - tanh(a)^2` is not negative. -/
theorem tanh_derivative_nonneg (a : ℝ) : 0 ≤ tanh_derivative ⟨Real.exp, Real.tanh⟩ a := by
  simp only [tanh_derivative]
  have hc : 0 < Real.cosh a := Real.cosh_pos a
  have hsq : Real.tanh a ^ 2 = Real.sinh a ^ 2 / Real.cosh a ^ 2 := by
    rw [Real.tanh_eq_sinh_div_cosh, div_pow]
  have h1 : Real.sinh a ^ 2 / Real.cosh a ^ 2 ≤ 1 := by
    rw [div_le_one (by positivity), Real.cosh_sq]
    linarith
  linarith

/-- Over the reals, in every supported mode, the transfer derivative is not
negative at a value of the transfer function: `a * (1 - a) > 0` on sigmoid
values, `1 - tanh(a)^2 >= 0`, the relu derivative is 0 or 1 and the derivative
of `none` is 1. -/
theorem derivative_nonneg_on_outputs (tf : String) (f d : ℝ → ℝ)
    (hmode : get_transfer_methods ⟨Real.exp, Real.tanh⟩ tf = some (f, d)) (z : ℝ) :
    0 ≤ d (f z) := by
  simp only [get_transfer_methods] at hmode
  split_ifs at hmode with h1 h2 h3 h4
  · simp only [Option.some.injEq, Prod.mk.injEq] at hmode
    rw [← hmode.2]
    exact tanh_derivative_nonneg _
  · simp only [Option.some.injEq, Prod.mk.injEq] at hmode
    rw [← hmode.2, ← hmode.1]
    have h := sigmoid_range z
    simp only [sigmoid_derivative]
    exact le_of_lt (mul_pos h.1 (by linarith))
  · simp only [Option.some.injEq, Prod.mk.injEq] at hmode
    rw [← hmode.2]
    simp only [relu_derivative]
    split_ifs <;> norm_num
  · simp only [Option.some.injEq, Prod.mk.injEq] at hmode
    rw [← hmode.2]
    simp [none_derivative]

/-- Each of the seven mode names selects a pair of transfer methods. -/
theorem supported_mode_methods (tf : String)
    (hmode : tf ∈ ["relu", "relu_regression", "sigmoid", "sigmoid_regression", "tanh",
      "tanh_regression", "none"]) :
    ∃ f d, get_transfer_methods (⟨Real.exp, Real.tanh⟩ : CMath ℝ) tf = some (f, d) := by
  cases h : get_transfer_methods (⟨Real.exp, Real.tanh⟩ : CMath ℝ) tf with
  | some pair => exact ⟨pair.1, pair.2, rfl⟩
  | none =>
    exfalso
    simp only [List.mem_cons, List.mem_singleton, List.not_mem_nil, or_false] at hmode
    rcases hmode with h1 | h1 | h1 | h1 | h1 | h1 | h1 <;> subst h1 <;>
      simp [get_transfer_methods] at h

/-- C17: over the reals, for every network, every supported mode and every
example whose input has as many entries as the first layer has neurons,
forward propagation returns, backpropagation called on the resulting state
with the same mode returns, every error it stores in the output layer is
`>= 0` and the cost it returns is `>= 0`, so that the absolute value taken in
`train` equals the cost itself. -/
theorem errors_nonneg_after_forward (net : NeuralNetwork ℝ) (p : Point ℝ) (tf : String)
    (hmode : tf ∈ ["relu", "relu_regression", "sigmoid", "sigmoid_regression", "tanh",
      "tanh_regression", "none"])
    (hx : p.x.length = (net.layer 0).size) :
    ∃ out net1 cost net2,
      net.forward_propagate ⟨Real.exp, Real.tanh⟩ p tf = Outcome.returned out net1 ∧
      net1.backpropagate ⟨Real.exp, Real.tanh⟩ p tf = Outcome.returned cost net2 ∧
      (∀ k, k < net2.back.size → 0 ≤ (net2.back.neuron k).error) ∧
      0 ≤ cost ∧ |cost| = cost := by
  obtain ⟨f, d, hfd⟩ := supported_mode_methods tf hmode
  obtain ⟨out, net1, hf, hrange⟩ :=
    forward_output_in_range ⟨Real.exp, Real.tanh⟩ net p tf f d hfd hx
  obtain ⟨cost, net2, hb, hneur, hcost⟩ :=
    backpropagate_back ⟨Real.exp, Real.tanh⟩ net1 p tf f d hfd
  have herr : ∀ k, k < net2.back.size → 0 ≤ (net2.back.neuron k).error := by
    intro k hk
    simp only [Layer.size, Layer.neuron] at hk ⊢
    rw [hneur] at hk ⊢
    rw [List.length_mapIdx] at hk
    rw [getD_mapIdx_of _ _ k ⟨0, 0, 0, []⟩ _ hk]
    obtain ⟨z, hz⟩ := hrange k hk
    simp only [Layer.neuron] at hz
    simp only [output_error, hz]
    exact mul_nonneg (sq_nonneg _) (derivative_nonneg_on_outputs tf f d hfd z)
  have hc : 0 ≤ cost := by
    rw [hcost, accumulate_eq_sum, zero_add]
    apply Finset.sum_nonneg
    intro k hk
    rw [Finset.mem_range, List.length_map] at hk
    rw [getD_map_of _ (fun n : Neuron ℝ => n.error) k ⟨0, 0, 0, []⟩ 0 rfl]
    exact herr k hk
  exact ⟨out, net1, cost, net2, hf, hb, herr, hc, abs_of_nonneg hc⟩

/-- On a non-empty vector shorter than 65536, `classify` returns once the fuel
covers the length of the vector. -/
theorem classify_returns (p : List α) (fuel : Nat) (hne : p ≠ []) (hlen : p.length < 65536)
    (hfuel : p.length ≤ fuel) : ∃ r, classify fuel p = some r := by
  have hpos : 0 < p.length := List.length_pos.mpr hne
  by_cases h1 : p.length = 1
  · exact ⟨_, by rw [classify, if_pos h1]⟩
  · obtain ⟨r, k1, hrun, _⟩ :=
      classify_loop_spec p (p.length - 1) (p.set 0 1) 0 1 rfl (by simp) hlen (by omega)
        (by omega)
        (by
          intro j hj
          have hj0 : j = 0 := by omega
          subst hj0
          rw [getD_set_self _ _ _ _ hpos]
          simp)
        (by
          intro j hj
          exact getD_set_other _ _ _ _ _ (by omega))
        (by
          intro j hj
          have hj0 : j = 0 := by omega
          subst hj0
          exact le_rfl)
        (by intro j hj; omega)
    exact ⟨r, by rw [classify, if_neg h1]; exact hrun fuel (by omega)⟩

/-- The running total after the neuron loop of `predict` is the total before
it plus the sum of the error fields. -/
theorem foldl_error_sum (ns : List (Neuron α)) (init : α) :
    ns.foldl (fun acc n => acc + n.error) init = init + (ns.map (fun n => n.error)).sum := by
  induction ns generalizing init with
  | nil => simp
  | cons n ns ih =>
    simp only [List.foldl_cons, List.map_cons, List.sum_cons]
    rw [ih]
    ring

/-- Two networks with the same forward frame have the same error fields in the
output layer and output layers of the same size. -/
theorem frame_back (net1 net : NeuralNetwork α)
    (h : net1.layers.map Layer.forward_frame = net.layers.map Layer.forward_frame) :
    net1.back.neurons.map (fun n => n.error) = net.back.neurons.map (fun n => n.error) ∧
      net1.back.size = net.back.size := by
  have h1 : (net1.layers.map Layer.forward_frame).getLast? =
      (net.layers.map Layer.forward_frame).getLast? := by rw [h]
  simp only [List.getLast?_map] at h1
  have h2 : net1.back.forward_frame = net.back.forward_frame := by
    simp only [NeuralNetwork.back, List.getLastD_eq_getLast?]
    cases ha : net1.layers.getLast? with
    | none =>
      cases hb : net.layers.getLast? with
      | none => rfl
      | some b => rw [ha, hb] at h1; simp at h1
    | some a =>
      cases hb : net.layers.getLast? with
      | none => rw [ha, hb] at h1; simp at h1
      | some b =>
        rw [ha, hb] at h1
        simpa using h1
  simp only [Layer.forward_frame, Prod.mk.injEq] at h2
  have h3 := congrArg (List.map Prod.fst) h2.2
  simp only [List.map_map] at h3
  refine ⟨h3, ?_⟩
  have h4 := congrArg List.length h2.2
  simpa [Layer.size] using h4

/-- Two networks with the same forward frame have first layers of the same
size. -/
theorem frame_first (net1 net : NeuralNetwork α)
    (h : net1.layers.map Layer.forward_frame = net.layers.map Layer.forward_frame) :
    (net1.layer 0).size = (net.layer 0).size := by
  have h1 : (net1.layers.map Layer.forward_frame).head? =
      (net.layers.map Layer.forward_frame).head? := by rw [h]
  simp only [List.head?_map] at h1
  simp only [NeuralNetwork.layer, Layer.size]
  cases ha : net1.layers with
  | nil =>
    cases hb : net.layers with
    | nil => rfl
    | cons b bs => rw [ha, hb] at h1; simp at h1
  | cons a as =>
    cases hb : net.layers with
    | nil => rw [ha, hb] at h1; simp at h1
    | cons b bs =>
      rw [ha, hb] at h1
      simp only [List.head?_cons, Option.map_some', Option.some.injEq, Layer.forward_frame,
        Prod.mk.injEq] at h1
      have h4 := congrArg List.length h1.2
      simpa using h4

/-- Forward propagation on an example of matching arity returns a vector with
one entry per output neuron and keeps the forward frame of the network. -/
theorem forward_propagate_for_predict (m : CMath α) (net : NeuralNetwork α) (p : Point α)
    (tf : String) (f d : α → α) (hmode : get_transfer_methods m tf = some (f, d))
    (hx : p.x.length = (net.layer 0).size) :
    ∃ out net1, net.forward_propagate m p tf = Outcome.returned out net1 ∧
      net1.layers.map Layer.forward_frame = net.layers.map Layer.forward_frame ∧
      out.length = net1.back.size := by
  cases hl : net.layers with
  | nil =>
    refine ⟨p.x, net, by simp [NeuralNetwork.forward_propagate, hmode, hl], by simp [hl], ?_⟩
    rw [hx]
    simp [NeuralNetwork.layer, NeuralNetwork.back, hl]
  | cons first rest =>
    refine ⟨_, _, forward_propagate_cons m net p tf f d first rest hmode hl, ?_, ?_⟩
    · rw [forward_layers_frame]
      simp [Layer.forward_frame, set_inputs_frame]
    · cases rest with
      | nil =>
        simp only [forward_layers, NeuralNetwork.back, List.getLastD_cons, List.getLastD_nil,
          Layer.size, set_inputs_length]
        simpa [NeuralNetwork.layer, hl, Layer.size] using hx
      | cons next rest =>
        simp only [forward_layers, NeuralNetwork.back]
        rw [forward_layers_out f tf rest _ _ (forward_layer_snd f tf _ _ _)]
        have hlen := (forward_layers_spec f tf rest (forward_layer f tf
          { first with neurons := set_inputs f first.neurons p.x } next p.x).1
          (forward_layer f tf { first with neurons := set_inputs f first.neurons p.x }
            next p.x).2).1
        cases hq : (forward_layers f tf (forward_layer f tf
          { first with neurons := set_inputs f first.neurons p.x } next p.x).1 rest
          (forward_layer f tf { first with neurons := set_inputs f first.neurons p.x }
            next p.x).2).1 with
        | nil => rw [hq] at hlen; simp at hlen
        | cons a l => simp [Layer.size]

/-- The example loop of `predict` returns, and the total cost it leaves is the
total it started from plus, for each example, the sum of the error fields the
output layer held before the loop. -/
theorem predict_loop_total [FloorRing α] (m : CMath α) (fuel : Nat) (tf : String)
    (f d : α → α) (hmode : get_transfer_methods m tf = some (f, d)) (ds : List (Point α)) :
    ∀ (v : PredictVars α) (net : NeuralNetwork α),
      (∀ p ∈ ds, p.x.length = (net.layer 0).size) →
      0 < net.back.size → net.back.size < 65536 → net.back.size ≤ fuel →
      ∃ v1 net1, predict_loop m fuel tf ds v net = some (Outcome.returned v1 net1) ∧
        v1.total_cost =
          v.total_cost + (ds.length : α) * (net.back.neurons.map (fun n => n.error)).sum := by
  induction ds with
  | nil =>
    intro v net _ _ _ _
    exact ⟨v, net, rfl, by simp⟩
  | cons p rest ih =>
    intro v net hx hpos hlt hfuel
    obtain ⟨out, net1, hf, hframe, hout⟩ :=
      forward_propagate_for_predict m net p tf f d hmode (hx p (List.mem_cons_self _ _))
    obtain ⟨herr, hsize⟩ := frame_back net1 net hframe
    have hfirst := frame_first net1 net hframe
    have hx1 : ∀ q ∈ rest, q.x.length = (net1.layer 0).size := by
      intro q hq
      rw [hfirst]
      exact hx q (List.mem_cons_of_mem _ hq)
    rw [predict_loop, hf]
    simp only
    by_cases hc : is_classification tf = true
    · rw [if_pos hc]
      obtain ⟨r, hr⟩ := classify_returns out fuel
        (by intro h; rw [h] at hout; simp at hout; omega) (by omega) (by omega)
      rw [hr]
      simp only
      obtain ⟨v1, net2, h1, h2⟩ := ih _ net1 hx1 (by omega) (by omega) (by omega)
      refine ⟨v1, net2, h1, ?_⟩
      rw [h2, foldl_error_sum, herr]
      simp only [List.length_cons, Nat.cast_add, Nat.cast_one]
      ring
    · rw [if_neg hc]
      obtain ⟨v1, net2, h1, h2⟩ := ih _ net1 hx1 (by omega) (by omega) (by omega)
      refine ⟨v1, net2, h1, ?_⟩
      rw [h2, foldl_error_sum, herr]
      simp only [List.length_cons, Nat.cast_add, Nat.cast_one]
      ring

/-- The sum of a list is the sum of its entries over the index range. -/
theorem list_sum_eq_range_sum (v : List α) :
    v.sum = ∑ i ∈ Finset.range v.length, v.getD i 0 := by
  have h1 := accumulate_eq_sum v 0
  have h2 := accumulate_eq_list_sum v 0
  rw [h2, zero_add, zero_add] at h1
  exact h1

/-- On a non-empty stream of examples of matching arity `predict` returns the
sum of the error fields the output layer held before the call. -/
theorem predict_mean_cost [FloorRing α] (m : CMath α) (fuel : Nat) (tf : String)
    (f d : α → α) (hmode : get_transfer_methods m tf = some (f, d)) (net : NeuralNetwork α)
    (ds : List (Point α)) (hne : ds ≠ [])
    (hx : ∀ p ∈ ds, p.x.length = (net.layer 0).size)
    (hpos : 0 < net.back.size) (hlt : net.back.size < 65536) (hfuel : net.back.size ≤ fuel) :
    ∃ report net1, net.predict m fuel ds tf = some (Outcome.returned report net1) ∧
      report.mean_cost = ∑ k ∈ Finset.range net.back.size, (net.back.neuron k).error := by
  obtain ⟨v1, net1, h1, h2⟩ :=
    predict_loop_total m fuel tf f d hmode ds ⟨0, 0, []⟩ net hx hpos hlt hfuel
  refine ⟨_, net1, by rw [NeuralNetwork.predict, hmode]; simp only; rw [h1], ?_⟩
  simp only [h2, zero_add, one_mul]
  have hn : (ds.length : α) ≠ 0 := by
    have : 0 < ds.length := List.length_pos.mpr hne
    exact_mod_cast this.ne'
  rw [mul_div_assoc, mul_comm, div_mul_cancel₀ _ hn, list_sum_eq_range_sum, List.length_map]
  apply Finset.sum_congr rfl
  intro k _
  exact getD_map_of _ (fun n : Neuron α => n.error) k ⟨0, 0, 0, []⟩ 0 rfl

/-- C18: over the reals, for every network whose output layer is non-empty and
has fewer than 65536 neurons, every supported mode and every two non-empty
evaluation streams whose inputs have as many entries as the first layer has
neurons, `predict` returns on both streams (the fuel covering the size of the
output layer) and returns the same number on both: the sum of the error
fields of the output neurons as they stood before the call. -/
theorem predict_ignores_examples (net : NeuralNetwork ℝ) (ds1 ds2 : List (Point ℝ))
    (tf : String) (fuel : Nat)
    (hmode : tf ∈ ["relu", "relu_regression", "sigmoid", "sigmoid_regression", "tanh",
      "tanh_regression", "none"])
    (hne1 : ds1 ≠ []) (hne2 : ds2 ≠ [])
    (hx1 : ∀ p ∈ ds1, p.x.length = (net.layer 0).size)
    (hx2 : ∀ p ∈ ds2, p.x.length = (net.layer 0).size)
    (hpos : 0 < net.back.size) (hlt : net.back.size < 65536) (hfuel : net.back.size ≤ fuel) :
    ∃ report1 net1 report2 net2,
      net.predict ⟨Real.exp, Real.tanh⟩ fuel ds1 tf = some (Outcome.returned report1 net1) ∧
      net.predict ⟨Real.exp, Real.tanh⟩ fuel ds2 tf = some (Outcome.returned report2 net2) ∧
      report1.mean_cost = report2.mean_cost ∧
      report1.mean_cost = ∑ k ∈ Finset.range net.back.size, (net.back.neuron k).error := by
  obtain ⟨f, d, hfd⟩ := supported_mode_methods tf hmode
  obtain ⟨r1, n1, h1, e1⟩ := predict_mean_cost ⟨Real.exp, Real.tanh⟩ fuel tf f d hfd net ds1
    hne1 hx1 hpos hlt hfuel
  obtain ⟨r2, n2, h2, e2⟩ := predict_mean_cost ⟨Real.exp, Real.tanh⟩ fuel tf f d hfd net ds2
    hne2 hx2 hpos hlt hfuel
  exact ⟨r1, n1, r2, n2, h1, h2, by rw [e1, e2], e1⟩

/-- C18, witness: a two-layer network whose output neuron holds the error 3,
mode `relu`, a stream of one example and a stream of two other examples. -/
theorem predict_ignores_examples_witness :
    ∃ report1 net1 report2 net2,
      (⟨[⟨[⟨0, 0, 0, [-1]⟩], 5⟩, ⟨[⟨0, 0, 3, []⟩], 0⟩]⟩ : NeuralNetwork ℝ).predict
        ⟨Real.exp, Real.tanh⟩ 1 [⟨[1], [0]⟩] "relu" = some (Outcome.returned report1 net1) ∧
      (⟨[⟨[⟨0, 0, 0, [-1]⟩], 5⟩, ⟨[⟨0, 0, 3, []⟩], 0⟩]⟩ : NeuralNetwork ℝ).predict
        ⟨Real.exp, Real.tanh⟩ 1 [⟨[-7], [1]⟩, ⟨[2], [0]⟩] "relu" =
          some (Outcome.returned report2 net2) ∧
      report1.mean_cost = report2.mean_cost ∧
      report1.mean_cost = ∑ k ∈ Finset.range
        (⟨[⟨[⟨0, 0, 0, [-1]⟩], 5⟩, ⟨[⟨0, 0, 3, []⟩], 0⟩]⟩ : NeuralNetwork ℝ).back.size,
        ((⟨[⟨[⟨0, 0, 0, [-1]⟩], 5⟩, ⟨[⟨0, 0, 3, []⟩], 0⟩]⟩ : NeuralNetwork ℝ).back.neuron k).error :=
  predict_ignores_examples ⟨[⟨[⟨0, 0, 0, [-1]⟩], 5⟩, ⟨[⟨0, 0, 3, []⟩], 0⟩]⟩
    [⟨[1], [0]⟩] [⟨[-7], [1]⟩, ⟨[2], [0]⟩] "relu" 1 (by simp) (by simp) (by simp)
    (by simp [NeuralNetwork.layer, Layer.size]) (by simp [NeuralNetwork.layer, Layer.size])
    (by simp [NeuralNetwork.back, Layer.size]) (by simp [NeuralNetwork.back, Layer.size])
    (by simp [NeuralNetwork.back, Layer.size])

/-- C17, witness: `example_network` and `example_point` in mode `sigmoid`. -/
theorem errors_nonneg_after_forward_witness :
    ∃ out net1 cost net2,
      (example_network ℝ).forward_propagate ⟨Real.exp, Real.tanh⟩ (example_point ℝ) "sigmoid" =
        Outcome.returned out net1 ∧
      net1.backpropagate ⟨Real.exp, Real.tanh⟩ (example_point ℝ) "sigmoid" =
        Outcome.returned cost net2 ∧
      (∀ k, k < net2.back.size → 0 ≤ (net2.back.neuron k).error) ∧
      0 ≤ cost ∧ |cost| = cost :=
  errors_nonneg_after_forward (example_network ℝ) (example_point ℝ) "sigmoid" (by simp)
    (by simp [example_network, example_point, NeuralNetwork.layer, Layer.size])

/-- Two targets whose residuals against the stored transfer values are opposite
give every output neuron the same error: the residual only enters squared. -/
theorem mapIdx_output_error_congr (d : α → α) (y y1 : List α) (ns : List (Neuron α))
    (h : ∀ k, k < ns.length →
      y1.getD k 0 - (ns.getD k ⟨0, 0, 0, []⟩).transfer_value =
        -(y.getD k 0 - (ns.getD k ⟨0, 0, 0, []⟩).transfer_value)) :
    ns.mapIdx (output_error d y1) = ns.mapIdx (output_error d y) := by
  apply List.ext_getElem
  · simp
  · intro k h1 h2
    simp only [List.length_mapIdx] at h1
    have hk := h k h1
    rw [List.getD_eq_getElem _ _ h1] at hk
    simp only [List.getElem_mapIdx, output_error]
    rw [hk, neg_sq]

/-- C20: for every network state, every supported mode and every two targets
`y` and `y1` with `y1[k] - t_k = -(y[k] - t_k)` for every output neuron `k`,
`t_k` being its stored transfer value, backpropagation on `y` and on `y1`
returns the same cost and leaves the same network, so the same error field in
every neuron, and a following `update_weights` with the same input, learning
rate and normalisation flag yields the same network in both runs. -/
theorem backpropagate_sign_blind (m : CMath α) (net : NeuralNetwork α) (x y y1 : List α)
    (tf : String) (f d : α → α) (lr : α) (normalize_lr : Bool)
    (hmode : get_transfer_methods m tf = some (f, d))
    (hsign : ∀ k, k < net.back.size →
      y1.getD k 0 - (net.back.neuron k).transfer_value =
        -(y.getD k 0 - (net.back.neuron k).transfer_value)) :
    ∃ cost net1,
      net.backpropagate m ⟨x, y⟩ tf = Outcome.returned cost net1 ∧
      net.backpropagate m ⟨x, y1⟩ tf = Outcome.returned cost net1 ∧
      net1.update_weights ⟨x, y1⟩ lr normalize_lr = net1.update_weights ⟨x, y⟩ lr normalize_lr := by
  cases hl : net.layers.reverse with
  | nil =>
    have hnil : net.layers = [] := by simpa using hl
    exact ⟨0, net, backpropagate_nil m net _ tf f d hmode hnil,
      backpropagate_nil m net _ tf f d hmode hnil, rfl⟩
  | cons back before =>
    have hb := back_of_reverse net back before hl
    have hc : back.neurons.mapIdx (output_error d y1) = back.neurons.mapIdx (output_error d y) := by
      apply mapIdx_output_error_congr
      intro k hk
      have := hsign k (by rw [hb]; exact hk)
      rw [hb] at this
      exact this
    refine ⟨_, _, backpropagate_rev m net ⟨x, y⟩ tf f d back before hmode hl, ?_, rfl⟩
    rw [backpropagate_rev m net ⟨x, y1⟩ tf f d back before hmode hl]
    simp only [hc]

/-- C20, witness: `small_network`, whose output neuron holds the transfer value
0, mode `none`, targets `[3]` and `[-3]`. -/
theorem backpropagate_sign_blind_witness :
    ∃ cost net1,
      (small_network ℝ).backpropagate ⟨Real.exp, Real.tanh⟩ ⟨[1], [3]⟩ "none" =
        Outcome.returned cost net1 ∧
      (small_network ℝ).backpropagate ⟨Real.exp, Real.tanh⟩ ⟨[1], [-3]⟩ "none" =
        Outcome.returned cost net1 ∧
      net1.update_weights ⟨[1], [-3]⟩ (1 / 2) true = net1.update_weights ⟨[1], [3]⟩ (1 / 2) true :=
  backpropagate_sign_blind ⟨Real.exp, Real.tanh⟩ (small_network ℝ) [1] [3] [-3] "none"
    none_function none_derivative (1 / 2) true (by simp [get_transfer_methods])
    (by
      intro k hk
      simp only [small_network, NeuralNetwork.back, Layer.size, List.getLastD_cons,
        List.getLastD_nil, List.length_singleton, Nat.lt_one_iff] at hk
      subst hk
      simp [small_network, NeuralNetwork.back, Layer.neuron])

/-- Two networks with the same forward frame agree, layer by layer, on the
size, the bias and every weight. -/
theorem forward_frame_layer (net1 net : NeuralNetwork α)
    (h : net1.layers.map Layer.forward_frame = net.layers.map Layer.forward_frame) (L : Nat) :
    (net1.layer L).size = (net.layer L).size ∧ (net1.layer L).bias = (net.layer L).bias ∧
      ∀ i j, net1.weight L i j = net.weight L i j := by
  have hL : (net1.layers.map Layer.forward_frame).getD L (0, []) =
      (net.layers.map Layer.forward_frame).getD L (0, []) := by rw [h]
  rw [getD_map_of net1.layers Layer.forward_frame L ⟨[], 0⟩ (0, []) rfl,
    getD_map_of net.layers Layer.forward_frame L ⟨[], 0⟩ (0, []) rfl] at hL
  simp only [Layer.forward_frame, Prod.mk.injEq] at hL
  obtain ⟨hb, hn⟩ := hL
  refine ⟨?_, hb, ?_⟩
  · have := congrArg List.length hn
    simpa [Layer.size, NeuralNetwork.layer] using this
  · intro i j
    have hi : (((net1.layers.getD L ⟨[], 0⟩).neurons.map
        (fun n : Neuron α => (n.error, n.weights_to_next_layer))).getD i (0, [])) =
        (((net.layers.getD L ⟨[], 0⟩).neurons.map
        (fun n : Neuron α => (n.error, n.weights_to_next_layer))).getD i (0, [])) := by rw [hn]
    rw [getD_map_of _ (fun n : Neuron α => (n.error, n.weights_to_next_layer)) i ⟨0, 0, 0, []⟩
        (0, []) rfl,
      getD_map_of _ (fun n : Neuron α => (n.error, n.weights_to_next_layer)) i ⟨0, 0, 0, []⟩
        (0, []) rfl] at hi
    simp only [Prod.mk.injEq] at hi
    simp only [NeuralNetwork.weight, NeuralNetwork.neuron, NeuralNetwork.layer, Layer.neuron]
    rw [hi.2]

/-- Two networks with the same backward frame agree, layer by layer, on the
size, every transfer value and every weight. -/
theorem backward_frame_layer (net1 net : NeuralNetwork α)
    (h : net1.layers.map Layer.backward_frame = net.layers.map Layer.backward_frame) (L : Nat) :
    (net1.layer L).size = (net.layer L).size ∧
      (∀ i, (net1.neuron L i).transfer_value = (net.neuron L i).transfer_value) ∧
      ∀ i j, net1.weight L i j = net.weight L i j := by
  have hL : (net1.layers.map Layer.backward_frame).getD L (0, []) =
      (net.layers.map Layer.backward_frame).getD L (0, []) := by rw [h]
  rw [getD_map_of net1.layers Layer.backward_frame L ⟨[], 0⟩ (0, []) rfl,
    getD_map_of net.layers Layer.backward_frame L ⟨[], 0⟩ (0, []) rfl] at hL
  simp only [Layer.backward_frame, Prod.mk.injEq] at hL
  obtain ⟨_, hn⟩ := hL
  have hi : ∀ i, (((net1.layers.getD L ⟨[], 0⟩).neurons.map
      (fun n : Neuron α => (n.activated_value, n.transfer_value, n.weights_to_next_layer))).getD i
        (0, 0, [])) =
      (((net.layers.getD L ⟨[], 0⟩).neurons.map
      (fun n : Neuron α => (n.activated_value, n.transfer_value, n.weights_to_next_layer))).getD i
        (0, 0, [])) := by
    intro i
    rw [hn]
  refine ⟨?_, ?_, ?_⟩
  · have := congrArg List.length hn
    simpa [Layer.size, NeuralNetwork.layer] using this
  · intro i
    have h1 := hi i
    rw [getD_map_of _ (fun n : Neuron α =>
          (n.activated_value, n.transfer_value, n.weights_to_next_layer)) i ⟨0, 0, 0, []⟩
        (0, 0, []) rfl,
      getD_map_of _ (fun n : Neuron α =>
          (n.activated_value, n.transfer_value, n.weights_to_next_layer)) i ⟨0, 0, 0, []⟩
        (0, 0, []) rfl] at h1
    simp only [Prod.mk.injEq] at h1
    simp only [NeuralNetwork.neuron, NeuralNetwork.layer, Layer.neuron]
    exact h1.2.1
  · intro i j
    have h1 := hi i
    rw [getD_map_of _ (fun n : Neuron α =>
          (n.activated_value, n.transfer_value, n.weights_to_next_layer)) i ⟨0, 0, 0, []⟩
        (0, 0, []) rfl,
      getD_map_of _ (fun n : Neuron α =>
          (n.activated_value, n.transfer_value, n.weights_to_next_layer)) i ⟨0, 0, 0, []⟩
        (0, 0, []) rfl] at h1
    simp only [Prod.mk.injEq] at h1
    simp only [NeuralNetwork.weight, NeuralNetwork.neuron, NeuralNetwork.layer, Layer.neuron]
    rw [h1.2.2]

/-- Forward propagation in a supported mode returns and keeps, in every layer,
the bias and each neuron's error and weights. -/
theorem forward_propagate_keeps (m : CMath α) (net : NeuralNetwork α) (p : Point α)
    (tf : String) (f d : α → α) (hmode : get_transfer_methods m tf = some (f, d)) :
    ∃ out net1, net.forward_propagate m p tf = Outcome.returned out net1 ∧
      net1.layers.map Layer.forward_frame = net.layers.map Layer.forward_frame := by
  cases hl : net.layers with
  | nil =>
    exact ⟨p.x, net, by simp [NeuralNetwork.forward_propagate, hmode, hl], by simp [hl]⟩
  | cons first rest =>
    refine ⟨_, _, forward_propagate_cons m net p tf f d first rest hmode hl, ?_⟩
    rw [forward_layers_frame]
    simp [Layer.forward_frame, set_inputs_frame]

/-- Backpropagation in a supported mode returns and keeps, in every layer, the
bias and each neuron's activated value, transfer value and weights. -/
theorem backpropagate_keeps (m : CMath α) (net : NeuralNetwork α) (p : Point α)
    (tf : String) (f d : α → α) (hmode : get_transfer_methods m tf = some (f, d)) :
    ∃ cost net1, net.backpropagate m p tf = Outcome.returned cost net1 ∧
      net1.layers.map Layer.backward_frame = net.layers.map Layer.backward_frame := by
  cases hl : net.layers.reverse with
  | nil =>
    have hnil : net.layers = [] := by simpa using hl
    exact ⟨0, net, backpropagate_nil m net p tf f d hmode hnil, rfl⟩
  | cons back before =>
    refine ⟨_, _, backpropagate_rev m net p tf f d back before hmode hl, ?_⟩
    have h : net.layers = (back :: before).reverse := by
      rw [← hl, List.reverse_reverse]
    rw [h]
    simp only [List.map_reverse, List.map_cons, backward_pass_frame]
    congr 2
    simp only [Layer.backward_frame]
    congr 1
    exact map_mapIdx_of _ _ _ _ (fun i a => rfl)

/-- C2 (amended): `forward_propagate` in a supported mode with activation `f`,
on an example whose input length is the input layer size, returns a network
with as many layers as before and as many neurons in each layer, in which
every neuron `i` of the input layer of the network it was called on holds
`f (x i)` and every neuron `j` of every later layer `L` of that network holds
`f (bias L + sum over i of weight (L-1) i j * v i)`. The layers, their sizes,
the bias and the weights are those of the network before the call; `v i` is
the raw input `x i` when `L = 1` and the transfer value stored by the call in
neuron `i` of layer `L - 1` when `L >= 2`. -/
theorem forward_propagate_transfer (m : CMath α) (net : NeuralNetwork α) (p : Point α)
    (tf : String) (f d : α → α) (hmode : get_transfer_methods m tf = some (f, d))
    (hx : p.x.length = (net.layer 0).size) :
    ∃ out net1, net.forward_propagate m p tf = Outcome.returned out net1 ∧
      net1.layers.length = net.layers.length ∧
      (∀ L, (net1.layer L).size = (net.layer L).size) ∧
      (∀ i, i < (net.layer 0).size → (net1.neuron 0 i).transfer_value = f (p.x.getD i 0)) ∧
      ∀ L j, 1 ≤ L → L < net.layers.length → j < (net.layer L).size →
        (net1.neuron L j).transfer_value =
          f ((net.layer L).bias + ∑ i ∈ Finset.range (net.layer (L - 1)).size,
            net.weight (L - 1) i j *
              (if L = 1 then p.x.getD i 0 else (net1.neuron (L - 1) i).transfer_value)) := by
  obtain ⟨out, net1, hf, h0, hlater⟩ := forward_propagate_stored m net p tf f d hmode hx
  obtain ⟨out2, net2, hf2, hframe⟩ := forward_propagate_keeps m net p tf f d hmode
  rw [hf] at hf2
  injection hf2 with _ hnet
  subst hnet
  have hlen : net1.layers.length = net.layers.length := by
    have := congrArg List.length hframe
    simpa using this
  refine ⟨out, net1, hf, hlen, fun L => (forward_frame_layer net1 net hframe L).1, ?_, ?_⟩
  · intro i hi
    exact h0 i (by rw [(forward_frame_layer net1 net hframe 0).1]; exact hi)
  · intro L j hL1 hL hj
    rw [hlater L j hL1 (by rw [hlen]; exact hL)
      (by rw [(forward_frame_layer net1 net hframe L).1]; exact hj),
      (forward_frame_layer net1 net hframe L).2.1,
      (forward_frame_layer net1 net hframe (L - 1)).1]
    congr 2
    apply Finset.sum_congr rfl
    intro i _
    rw [(forward_frame_layer net1 net hframe (L - 1)).2.2 i j]

/-- C4: `backpropagate` in a supported mode with activation `f` returns a
network with as many layers as before and as many neurons in each layer, in
which every neuron `i` of every layer `L` before the output layer of the
network it was called on, the input layer included, has error `(sum over j of
error (L+1) j * weight L i j) * f (transfer value L i)`. The layers, their
sizes, the weights and the transfer values are those of the network before
the call, and the errors of layer `L + 1` are those stored by the same call. -/
theorem backpropagate_hidden_errors (m : CMath α) (net : NeuralNetwork α) (p : Point α)
    (tf : String) (f d : α → α) (hmode : get_transfer_methods m tf = some (f, d)) :
    ∃ cost net1, net.backpropagate m p tf = Outcome.returned cost net1 ∧
      net1.layers.length = net.layers.length ∧
      (∀ L, (net1.layer L).size = (net.layer L).size) ∧
      ∀ L i, L + 1 < net.layers.length → i < (net.layer L).size →
        (net1.neuron L i).error =
          (∑ j ∈ Finset.range (net.layer (L + 1)).size,
            (net1.neuron (L + 1) j).error * net.weight L i j) *
            f (net.neuron L i).transfer_value := by
  obtain ⟨cost, net1, hb, herr⟩ := backpropagate_stored_errors m net p tf f d hmode
  obtain ⟨cost2, net2, hb2, hframe⟩ := backpropagate_keeps m net p tf f d hmode
  rw [hb] at hb2
  injection hb2 with _ hnet
  subst hnet
  have hlen : net1.layers.length = net.layers.length := by
    have := congrArg List.length hframe
    simpa using this
  refine ⟨cost, net1, hb, hlen, fun L => (backward_frame_layer net1 net hframe L).1, ?_⟩
  intro L i hL hi
  rw [herr L i (by rw [hlen]; exact hL)
    (by rw [(backward_frame_layer net1 net hframe L).1]; exact hi),
    (backward_frame_layer net1 net hframe (L + 1)).1,
    (backward_frame_layer net1 net hframe L).2.1 i]
  congr 1
  apply Finset.sum_congr rfl
  intro j _
  rw [(backward_frame_layer net1 net hframe L).2.2 i j]

/-- C2, witness: the amended claim on `example_network` in mode `relu`. -/
theorem forward_propagate_transfer_witness :
    ∃ out net1, (example_network ℝ).forward_propagate ⟨Real.exp, Real.tanh⟩ (example_point ℝ)
        "relu" = Outcome.returned out net1 ∧
      net1.layers.length = (example_network ℝ).layers.length ∧
      (∀ L, (net1.layer L).size = ((example_network ℝ).layer L).size) ∧
      (∀ i, i < ((example_network ℝ).layer 0).size →
        (net1.neuron 0 i).transfer_value = relu ((example_point ℝ).x.getD i 0)) ∧
      ∀ L j, 1 ≤ L → L < (example_network ℝ).layers.length →
        j < ((example_network ℝ).layer L).size →
        (net1.neuron L j).transfer_value =
          relu (((example_network ℝ).layer L).bias +
            ∑ i ∈ Finset.range ((example_network ℝ).layer (L - 1)).size,
              (example_network ℝ).weight (L - 1) i j *
                (if L = 1 then (example_point ℝ).x.getD i 0
                  else (net1.neuron (L - 1) i).transfer_value)) :=
  forward_propagate_transfer ⟨Real.exp, Real.tanh⟩ (example_network ℝ) (example_point ℝ) "relu"
    relu relu_derivative (by simp [get_transfer_methods])
    (by simp [example_network, example_point, NeuralNetwork.layer, Layer.size])

/-- C4, witness: the claim on `activated_network`, whose neurons hold transfer
values other than 0, in mode `relu`. -/
theorem backpropagate_hidden_errors_witness :
    ∃ cost net1, (activated_network ℝ).backpropagate ⟨Real.exp, Real.tanh⟩ (example_point ℝ)
        "relu" = Outcome.returned cost net1 ∧
      net1.layers.length = (activated_network ℝ).layers.length ∧
      (∀ L, (net1.layer L).size = ((activated_network ℝ).layer L).size) ∧
      ∀ L i, L + 1 < (activated_network ℝ).layers.length →
        i < ((activated_network ℝ).layer L).size →
        (net1.neuron L i).error =
          (∑ j ∈ Finset.range ((activated_network ℝ).layer (L + 1)).size,
            (net1.neuron (L + 1) j).error * (activated_network ℝ).weight L i j) *
            relu ((activated_network ℝ).neuron L i).transfer_value :=
  backpropagate_hidden_errors ⟨Real.exp, Real.tanh⟩ (activated_network ℝ) (example_point ℝ) "relu"
    relu relu_derivative (by simp [get_transfer_methods])

end Proofs

end NN
